import Mathlib

/-!
Shallow embedding of the label-statistics cache of the PR-reviewer backend
(src/backend/services/label_stats_cache.py) together with the parts of the
submission scanner (src/backend/services/data_scanner.py), the label store
(src/backend/services/file_service.py), the label API handlers
(src/backend/api/labels.py) and the startup sequence (src/backend/main.py)
that the cache interacts with.

Modelling conventions:
* Python dicts are modelled as association lists (`List (String × _)`) with
  first-match lookup (`lookupA`) and replace-or-append assignment (`setA`),
  which reproduces dict lookup/assignment semantics; dict keys are unique,
  which appears as explicit Nodup hypotheses where a proof needs it.
* Python ints are modelled as `Int` (so clamping with `min`/`max` and the
  nonnegativity invariants are meaningful).
* An `AgentSubmission` is reduced to its `resolved` flag, the only field the
  cache ever reads; a stored `Label` is reduced to its (problem_id,
  agent_name) key, the only part the cache ever reads.
* The scanner and the label store are modelled through the exact interface
  the cache calls: `get_problems`, `get_problem`, `get_all_agent_submissions`
  / per-agent lookup, and `get_all_labels_for_problem`.
-/

namespace LabelStats

/-- First-match lookup in an association list; this is the behaviour of
Python `dict.get` on a dict represented as its (unique-keyed) item list. -/
def lookupA {β : Type} : List (String × β) → String → Option β
  | [], _ => none
  | (k, v) :: rest, key => if k = key then some v else lookupA rest key

/-- Replace-or-append assignment on an association list; this is the
behaviour of Python `d[k] = v` (overwrite the entry of the key if present,
append a new entry otherwise). -/
def setA {β : Type} : List (String × β) → String → β → List (String × β)
  | [], k, v => [(k, v)]
  | kv :: rest, k, v => if kv.1 = k then (k, v) :: rest else kv :: setA rest k v

/-- A problem as the cache sees it: its identifier and its repository name.
The scanner's `Problem` carries further fields (issue number, base commit,
problem statement, URLs) that the cache never reads. -/
structure Problem where
  problem_id : String
  repo : String
deriving DecidableEq

/-- The external state the cache reads: the Submission Index (problems and
per-problem agent submissions, reduced to the `resolved` flag) and the Label
Store (which (problem_id, agent_name) keys currently have a label file, and
which have a draft file). -/
structure World where
  problems : List Problem
  submissions : String → List (String × Bool)
  labels : List (String × String)
  drafts : List (String × String)

/-- Lexicographic code-point comparison of character lists: the order
Python uses when sorting strings. -/
def charListLe : List Char → List Char → Bool
  | [], _ => true
  | _ :: _, [] => false
  | a :: as, b :: bs =>
    if a.val < b.val then true
    else if b.val < a.val then false
    else charListLe as bs

/-- String comparison by code points, as Python compares str keys. -/
def strLe (a b : String) : Bool := charListLe a.data b.data

/-- Insertion into a list sorted by problem_id. -/
def orderedInsertP (p : Problem) : List Problem → List Problem
  | [] => [p]
  | q :: qs => if strLe p.problem_id q.problem_id then p :: q :: qs else q :: orderedInsertP p qs

/-- Python sorted(problems, key=lambda p: p.problem_id), modelled as an
insertion sort on the code-point order of the ids. -/
def sortedByProblemId : List Problem → List Problem
  | [] => []
  | p :: ps => orderedInsertP p (sortedByProblemId ps)

/-- scanner.get_problems: all problems, optionally filtered by repository,
sorted by problem_id. The source guards the filter with Python `if repo:`,
so an empty-string repository name is falsy and disables the filter. -/
def get_problems (w : World) (repo : Option String) : List Problem :=
  let problems :=
    match repo with
    | some r => if r = "" then w.problems else w.problems.filter (fun p => p.repo == r)
    | none => w.problems
  sortedByProblemId problems

/-- scanner.get_problem: dict lookup of a problem by its id, modelled as a
first-match search over the problem list; it coincides with the dict lookup
because the ids are the keys of scanner._problems. -/
def get_problem (w : World) (problem_id : String) : Option Problem :=
  w.problems.find? (fun p => p.problem_id == problem_id)

/-- scanner.get_all_agent_submissions: the agent_name → submission dict for
one problem, each submission reduced to its `resolved` flag. -/
def get_all_agent_submissions (w : World) (problem_id : String) : List (String × Bool) :=
  w.submissions problem_id

/-- scanner.get_agent_submission for one (agent, problem) key. -/
def get_agent_submission (w : World) (agent_name problem_id : String) : Option Bool :=
  lookupA (get_all_agent_submissions w problem_id) agent_name

/-- file_service.get_all_labels_for_problem, reduced to the agent names of
the labels that exist for the problem (the only part the cache reads). -/
def get_all_labels_for_problem (w : World) (problem_id : String) : List String :=
  (w.labels.filter (fun l => l.1 == problem_id)).map (fun l => l.2)

/-- The agents whose submission for the problem is resolved, in submission
order: the list comprehension at label_stats_cache.py lines 44-48. -/
def resolved_agents (w : World) (problem_id : String) : List String :=
  ((get_all_agent_submissions w problem_id).filter (fun s => s.2)).map (fun s => s.1)

/-- total_resolved at label_stats_cache.py line 49. -/
def totalResolvedCount (w : World) (problem_id : String) : Int :=
  ((resolved_agents w problem_id).length : Int)

/-- resolved_agents_with_labels at label_stats_cache.py lines 63-65. -/
def resolved_agents_with_labels (w : World) (problem_id : String) : List String :=
  (resolved_agents w problem_id).filter
    (fun agent => (get_all_labels_for_problem w problem_id).contains agent)

/-- labeled_resolved_count at label_stats_cache.py line 66. -/
def labeledResolvedCount (w : World) (problem_id : String) : Int :=
  ((resolved_agents_with_labels w problem_id).length : Int)

/-- The two mappings owned by LabelStatsCache: problem_id →
(labeled_resolved_count, total_resolved_count) and repo_name →
(fully_labeled_issues, total_issues_with_resolved_agents). -/
structure LabelStatsCache where
  problem_stats : List (String × (Int × Int))
  repo_stats : List (String × (Int × Int))
deriving DecidableEq

/-- The freshly constructed cache: both mappings empty. -/
def LabelStatsCache.empty : LabelStatsCache := ⟨[], []⟩

/-- The loop state of rebuild_cache: the problem-stats dict being filled and
the two per-repo counter dicts (repo_issue_counts, repo_fully_labeled_counts). -/
structure RebuildAcc where
  problem_stats : List (String × (Int × Int))
  repo_issue_counts : List (String × Int)
  repo_fully_labeled_counts : List (String × Int)

/-- One iteration of the per-problem loop of rebuild_cache
(label_stats_cache.py lines 39-78). -/
def rebuildStep (w : World) (acc : RebuildAcc) (problem : Problem) : RebuildAcc :=
  let total_resolved := totalResolvedCount w problem.problem_id
  if total_resolved = 0 then acc
  else
    let repo_issue_counts := setA acc.repo_issue_counts problem.repo
      ((lookupA acc.repo_issue_counts problem.repo).getD 0 + 1)
    let labeled_resolved_count := labeledResolvedCount w problem.problem_id
    let problem_stats := setA acc.problem_stats problem.problem_id
      (labeled_resolved_count, total_resolved)
    let repo_fully_labeled_counts :=
      if total_resolved > 0 ∧ labeled_resolved_count = total_resolved then
        setA acc.repo_fully_labeled_counts problem.repo
          ((lookupA acc.repo_fully_labeled_counts problem.repo).getD 0 + 1)
      else acc.repo_fully_labeled_counts
    ⟨problem_stats, repo_issue_counts, repo_fully_labeled_counts⟩

/-- One iteration of the repo-stats store loop of rebuild_cache
(label_stats_cache.py lines 81-87). -/
def repoStoreStep (repo_fully_labeled_counts : List (String × Int))
    (repo_stats : List (String × (Int × Int))) (kv : String × Int) :
    List (String × (Int × Int)) :=
  setA repo_stats kv.1 ((lookupA repo_fully_labeled_counts kv.1).getD 0, kv.2)

/-- rebuild_cache (label_stats_cache.py lines 24-87): clears both mappings,
then recomputes them from the scanner and the label store. The previous
cache contents are cleared and never read, hence the unused argument. -/
def rebuild_cache (w : World) (_c : LabelStatsCache) : LabelStatsCache :=
  let acc := (get_problems w none).foldl (rebuildStep w) ⟨[], [], []⟩
  let repo_stats := acc.repo_issue_counts.foldl
    (repoStoreStep acc.repo_fully_labeled_counts) []
  ⟨acc.problem_stats, repo_stats⟩

/-- get_problem_label_stats (label_stats_cache.py lines 89-94): stored tuple
or the (0, 0) default; reads only the in-memory mapping. -/
def get_problem_label_stats (c : LabelStatsCache) (problem_id : String) : Int × Int :=
  (lookupA c.problem_stats problem_id).getD (0, 0)

/-- get_repo_label_stats (label_stats_cache.py lines 96-101): stored tuple
or the (0, 0) default; reads only the in-memory mapping. -/
def get_repo_label_stats (c : LabelStatsCache) (repo_name : String) : Int × Int :=
  (lookupA c.repo_stats repo_name).getD (0, 0)

/-- _update_repo_stats_for_problem_change (label_stats_cache.py lines
138-168): recomputes the repo tuple from the already-cached problem tuples
of all problems in the repository. The source reads the current repo tuple
first and never uses it (the variables are overwritten by the recount), so
the read is kept as a dead binding; the problem_id parameter is likewise
unused in the source body. -/
def update_repo_stats_for_problem_change (w : World) (c : LabelStatsCache)
    (repo_name _problem_id : String) : LabelStatsCache :=
  let _current := (lookupA c.repo_stats repo_name).getD (0, 0)
  let repo_problems := get_problems w (some repo_name)
  let counts := repo_problems.foldl
    (fun (nc : Int × Int) problem =>
      let prob := (lookupA c.problem_stats problem.problem_id).getD (0, 0)
      if prob.2 > 0 then
        ((if prob.1 = prob.2 then nc.1 + 1 else nc.1), nc.2 + 1)
      else nc)
    (0, 0)
  { c with repo_stats := setA c.repo_stats repo_name counts }

/-- update_problem_label_stats (label_stats_cache.py lines 103-136). -/
def update_problem_label_stats (w : World) (c : LabelStatsCache)
    (problem_id agent_name : String) (has_label : Bool) : LabelStatsCache :=
  let submissions := get_all_agent_submissions w problem_id
  match lookupA submissions agent_name with
  | none => c
  | some resolved =>
    if ¬ resolved then c
    else
      let stats := (lookupA c.problem_stats problem_id).getD (0, 0)
      let labeled_count :=
        if has_label then min (stats.1 + 1) stats.2 else max (stats.1 - 1) 0
      let c1 : LabelStatsCache :=
        { c with problem_stats := setA c.problem_stats problem_id (labeled_count, stats.2) }
      match get_problem w problem_id with
      | none => c1
      | some problem =>
        update_repo_stats_for_problem_change w c1 problem.repo problem_id

/-- The API layer reports errors as HTTP status codes; a handler yields
either an error code or the resulting (label store, cache) state. -/
abbrev ApiResult := Except Nat (World × LabelStatsCache)

/-- save_label handler (labels.py lines 95-124): 404 if the problem or the
submission is missing; otherwise writes the label file (so the key has a
label afterwards whether or not it had one before) and then calls
update_problem_label_stats with has_label = true unconditionally. -/
def api_save_label (w : World) (c : LabelStatsCache)
    (problem_id agent_name : String) : ApiResult :=
  match get_problem w problem_id with
  | none => .error 404
  | some _ =>
    match get_agent_submission w agent_name problem_id with
    | none => .error 404
    | some _ =>
      let w1 : World :=
        { w with labels :=
            if w.labels.contains (problem_id, agent_name) then w.labels
            else (problem_id, agent_name) :: w.labels }
      let c1 := update_problem_label_stats w1 c problem_id agent_name true
      .ok (w1, c1)

/-- delete_label handler (labels.py lines 127-152): 404 if the problem is
missing or no label file exists; otherwise removes the label file and calls
update_problem_label_stats with has_label = false. -/
def api_delete_label (w : World) (c : LabelStatsCache)
    (problem_id agent_name : String) : ApiResult :=
  match get_problem w problem_id with
  | none => .error 404
  | some _ =>
    let deleted := w.labels.contains (problem_id, agent_name)
    if deleted then
      let w1 : World :=
        { w with labels := w.labels.filter (fun l => l ≠ (problem_id, agent_name)) }
      let c1 := update_problem_label_stats w1 c problem_id agent_name false
      .ok (w1, c1)
    else .error 404

/-- commit_draft handler (labels.py lines 212-242): 404 if the problem or
the submission is missing; 400 if no draft exists (file_service.commit_draft
raises RuntimeError); otherwise renames the draft file onto the label file
(so the key has a label and no draft afterwards) and then calls
update_problem_label_stats with has_label = true unconditionally. -/
def api_commit_draft (w : World) (c : LabelStatsCache)
    (problem_id agent_name : String) : ApiResult :=
  match get_problem w problem_id with
  | none => .error 404
  | some _ =>
    match get_agent_submission w agent_name problem_id with
    | none => .error 404
    | some _ =>
      if w.drafts.contains (problem_id, agent_name) then
        let w1 : World :=
          { w with
            labels :=
              if w.labels.contains (problem_id, agent_name) then w.labels
              else (problem_id, agent_name) :: w.labels,
            drafts := w.drafts.filter (fun d => d ≠ (problem_id, agent_name)) }
        let c1 := update_problem_label_stats w1 c problem_id agent_name true
        .ok (w1, c1)
      else .error 400

/-- The effect of the startup sequence (main.py lifespan, lines 22-73) on
the label-statistics cache. The handler calls scanner.scan_data() and logs
ground-truth statistics, but main.py never imports label_stats_cache and
the lifespan body contains no call into it, so the cache keeps the state of
the freshly constructed global instance (both mappings empty). -/
def lifespan_startup (c : LabelStatsCache) : LabelStatsCache := c

/-- One real label-store transition: a label is created for a key that had
none (the call is made with has_label = true), or the label of a key that
had one is removed (has_label = false). The Submission Index part of the
world is unchanged. -/
inductive LabelTransition : World → String → String → Bool → World → Prop where
  | add (w : World) (problem_id agent_name : String)
      (h : (problem_id, agent_name) ∉ w.labels) :
      LabelTransition w problem_id agent_name true
        { w with labels := (problem_id, agent_name) :: w.labels }
  | remove (w : World) (problem_id agent_name : String)
      (h : (problem_id, agent_name) ∈ w.labels) :
      LabelTransition w problem_id agent_name false
        { w with labels := w.labels.filter (fun l => l ≠ (problem_id, agent_name)) }

/-- A finite sequence of update_problem_label_stats calls, each paired with
the real label-store transition it mirrors: the store changes first, then
the cache update runs against the new store state. -/
inductive UpdateSeq : World → LabelStatsCache → World → LabelStatsCache → Prop where
  | nil (w : World) (c : LabelStatsCache) : UpdateSeq w c w c
  | step (w : World) (c : LabelStatsCache) (problem_id agent_name : String)
      (has_label : Bool) (w1 w2 : World) (c2 : LabelStatsCache) :
      LabelTransition w problem_id agent_name has_label w1 →
      UpdateSeq w1 (update_problem_label_stats w1 c problem_id agent_name has_label) w2 c2 →
      UpdateSeq w c w2 c2

/-- Cache states reachable from the freshly constructed cache by rebuilds
and incremental updates, against arbitrary intervening external states. -/
inductive Reachable : LabelStatsCache → Prop where
  | empty : Reachable LabelStatsCache.empty
  | rebuild (w : World) (c : LabelStatsCache) :
      Reachable c → Reachable (rebuild_cache w c)
  | update (w : World) (c : LabelStatsCache) (problem_id agent_name : String)
      (has_label : Bool) :
      Reachable c →
      Reachable (update_problem_label_stats w c problem_id agent_name has_label)

/-- Well-formedness of the external state that every real scanner state
satisfies: problem ids are dict keys of scanner._problems and agent names
are dict keys of each per-problem submission dict, hence unique. -/
def World.WF (w : World) : Prop :=
  (w.problems.map (fun p => p.problem_id)).Nodup ∧
  ∀ problem_id, ((w.submissions problem_id).map (fun s => s.1)).Nodup

/-- The number of problems of repository r that have at least one resolved
agent, as recomputed by rebuild_cache for the current external state. -/
def repoQualifyingCount (w : World) (r : String) : Int :=
  ((w.problems.countP (fun p =>
    p.repo == r && decide (0 < totalResolvedCount w p.problem_id))) : Int)

/-- The number of problems of repository r that have at least one resolved
agent and all of whose resolved agents have a label. -/
def repoFullyLabeledCount (w : World) (r : String) : Int :=
  ((w.problems.countP (fun p =>
    p.repo == r && decide (0 < totalResolvedCount w p.problem_id) &&
      decide (labeledResolvedCount w p.problem_id = totalResolvedCount w p.problem_id))) : Int)

/-- The cache agrees with the external state: every known problem's getter
returns its true (labeled_resolved, total_resolved) counts, and every
repository getter returns its true (fully_labeled, with_resolved) counts. -/
def Consistent (w : World) (c : LabelStatsCache) : Prop :=
  (∀ p ∈ w.problems,
    get_problem_label_stats c p.problem_id =
      (labeledResolvedCount w p.problem_id, totalResolvedCount w p.problem_id)) ∧
  (∀ r, get_repo_label_stats c r = (repoFullyLabeledCount w r, repoQualifyingCount w r))

/-- All intermediate states of a fold, the seed first and the fold result
last: the sequence of loop states a concurrent reader could observe. -/
def scanStates {σ α : Type} (f : σ → α → σ) (s : σ) : List α → List σ
  | [] => [s]
  | x :: xs => s :: scanStates f (f s x) xs

/-- The cache states a reader of the two mappings can observe while
rebuild_cache executes: the state after the in-place clear of both dicts
(lines 29-30), the state after each iteration of the per-problem loop
(lines 39-78, during which repo_stats is still cleared), and the state
after each store of the repo loop (lines 81-87); the last state is the
completed rebuild. -/
def rebuild_trace (w : World) (_c : LabelStatsCache) : List LabelStatsCache :=
  let ps := get_problems w none
  let acc := ps.foldl (rebuildStep w) ⟨[], [], []⟩
  ((scanStates (rebuildStep w) ⟨[], [], []⟩ ps).map
      (fun a => (⟨a.problem_stats, []⟩ : LabelStatsCache))) ++
    ((scanStates (repoStoreStep acc.repo_fully_labeled_counts) [] acc.repo_issue_counts).map
      (fun rs => (⟨acc.problem_stats, rs⟩ : LabelStatsCache)))

/-! ### Concrete external states used by witnesses and counterexamples -/

/-- A small concrete external state used by witnesses: repository r contains
problem P (agents X and Y resolved, Z unresolved) and problem Q (its only
agent is unresolved); agent X has a label on P. -/
def wSmall : World where
  problems := [⟨"P", "r"⟩, ⟨"Q", "r"⟩]
  submissions := fun pid =>
    if pid = "P" then [("X", true), ("Y", true), ("Z", false)]
    else if pid = "Q" then [("V", false)]
    else []
  labels := [("P", "X")]
  drafts := []

/-- The world after the witness transition: agent Y's label on P added. -/
def wSmallY : World := { wSmall with labels := ("P", "Y") :: wSmall.labels }

/-- Counterexample state for the repo-refinement claim: problem P1 sits in a
repository whose name is the empty string (problem id "-1" parses to repo ""
and issue "1" in the scanner), problem P2 in repository r; X and Y are
resolved. -/
def wC1cex0 : World where
  problems := [⟨"P1", ""⟩, ⟨"P2", "r"⟩]
  submissions := fun pid =>
    if pid = "P1" then [("X", true)]
    else if pid = "P2" then [("Y", true)] else []
  labels := []
  drafts := []

/-- The counterexample world after the one real transition: X's label on P1
was created. -/
def wC1cex1 : World := { wC1cex0 with labels := ("P1", "X") :: wC1cex0.labels }

/-- The cache after mirroring that transition incrementally from a rebuilt
cache. -/
def cC1cex : LabelStatsCache :=
  update_problem_label_stats wC1cex1 (rebuild_cache wC1cex0 LabelStatsCache.empty)
    "P1" "X" true

/-! ### Association-list lemmas -/

theorem lookupA_setA {β : Type} (m : List (String × β)) (k key : String) (v : β) :
    lookupA (setA m k v) key = if key = k then some v else lookupA m key := by
  induction m with
  | nil =>
    by_cases h : k = key
    · simp [setA, lookupA, h]
    · simp [setA, lookupA, h, Ne.symm h]
  | cons kv rest ih =>
    by_cases hk : kv.1 = k
    · by_cases hkey : key = k
      · simp [setA, lookupA, hk, hkey]
      · have hk2 : ¬ k = key := Ne.symm hkey
        have hk3 : ¬ kv.1 = key := hk ▸ hk2
        simp [setA, lookupA, hk, hkey, hk2, hk3]
    · by_cases hkey : kv.1 = key
      · have hkk : ¬ key = k := fun h => hk (hkey.trans h)
        simp [setA, lookupA, hk, hkey, hkk]
      · simp [setA, lookupA, hk, hkey, ih]

theorem lookupA_eq_none_iff {β : Type} (m : List (String × β)) (k : String) :
    lookupA m k = none ↔ ∀ kv ∈ m, kv.1 ≠ k := by
  induction m with
  | nil => simp [lookupA]
  | cons kv rest ih =>
    by_cases hk : kv.1 = k
    · simp [lookupA, hk]
    · simp [lookupA, hk, ih]

theorem lookupA_mem {β : Type} {m : List (String × β)} {k : String} {v : β}
    (h : lookupA m k = some v) : (k, v) ∈ m := by
  induction m with
  | nil => simp [lookupA] at h
  | cons kv rest ih =>
    by_cases hk : kv.1 = k
    · simp only [lookupA, if_pos hk, Option.some.injEq] at h
      have heq : (k, v) = kv := by rw [← hk, ← h]
      exact List.mem_cons.mpr (Or.inl heq)
    · simp only [lookupA, if_neg hk] at h
      exact List.mem_cons_of_mem _ (ih h)

theorem mem_setA {β : Type} {m : List (String × β)} {k : String} {v : β} {x : String × β}
    (h : x ∈ setA m k v) : x ∈ m ∨ x = (k, v) := by
  induction m with
  | nil => simpa [setA] using h
  | cons kv rest ih =>
    by_cases hk : kv.1 = k
    · simp only [setA, if_pos hk] at h
      rcases List.mem_cons.mp h with h1 | h1
      · exact Or.inr h1
      · exact Or.inl (List.mem_cons_of_mem _ h1)
    · simp only [setA, if_neg hk] at h
      rcases List.mem_cons.mp h with h1 | h1
      · exact Or.inl (h1 ▸ List.mem_cons_self kv rest)
      · rcases ih h1 with h2 | h2
        · exact Or.inl (List.mem_cons_of_mem _ h2)
        · exact Or.inr h2

theorem keys_setA_present {β : Type} {m : List (String × β)} {k : String} (v : β)
    (h : lookupA m k ≠ none) : (setA m k v).map Prod.fst = m.map Prod.fst := by
  induction m with
  | nil => simp [lookupA] at h
  | cons kv rest ih =>
    by_cases hk : kv.1 = k
    · simp [setA, hk]
    · simp only [lookupA, if_neg hk] at h
      simp [setA, hk, ih h]

theorem keys_setA_absent {β : Type} {m : List (String × β)} {k : String} (v : β)
    (h : lookupA m k = none) : (setA m k v).map Prod.fst = m.map Prod.fst ++ [k] := by
  induction m with
  | nil => simp [setA]
  | cons kv rest ih =>
    by_cases hk : kv.1 = k
    · simp [lookupA, hk] at h
    · simp only [lookupA, if_neg hk] at h
      simp [setA, hk, ih h]

theorem nodup_keys_setA {β : Type} {m : List (String × β)} {k : String} (v : β)
    (h : (m.map Prod.fst).Nodup) : ((setA m k v).map Prod.fst).Nodup := by
  cases hlk : lookupA m k with
  | none =>
    rw [keys_setA_absent v hlk]
    have hk : k ∉ m.map Prod.fst := by
      intro hmem
      rcases List.mem_map.mp hmem with ⟨kv, hkv, hfst⟩
      exact (lookupA_eq_none_iff m k).mp hlk kv hkv hfst
    rw [List.nodup_append]
    refine ⟨h, List.nodup_singleton k, ?_⟩
    intro x hx hxk
    rw [List.mem_singleton] at hxk
    subst hxk
    exact hk hx
  | some u =>
    rw [keys_setA_present v (by simp [hlk])]
    exact h

theorem lookupA_of_mem_nodup {β : Type} {m : List (String × β)} {k : String} {v : β}
    (hnd : (m.map Prod.fst).Nodup) (hmem : (k, v) ∈ m) : lookupA m k = some v := by
  induction m with
  | nil => simp at hmem
  | cons kv rest ih =>
    rcases List.mem_cons.mp hmem with h1 | h1
    · simp [lookupA, ← h1]
    · have hk : kv.1 ≠ k := by
        intro hcontra
        have : kv.1 ∈ rest.map Prod.fst :=
          hcontra ▸ List.mem_map.mpr ⟨(k, v), h1, rfl⟩
        exact (List.nodup_cons.mp hnd).1 this
      simp only [lookupA, if_neg hk]
      exact ih (List.nodup_cons.mp hnd).2 h1

/-! ### Simple facts about the update path -/

theorem problem_stats_update_repo (w : World) (c : LabelStatsCache) (r pid : String) :
    (update_repo_stats_for_problem_change w c r pid).problem_stats = c.problem_stats := rfl

/-- After an update whose precondition check passes, the problem tuple is the
clamped increment/decrement of the tuple the getter returned before. -/
theorem update_resolved_problem_stats (w : World) (c : LabelStatsCache)
    (problem_id agent_name : String) (has_label : Bool)
    (hres : get_agent_submission w agent_name problem_id = some true) :
    get_problem_label_stats
        (update_problem_label_stats w c problem_id agent_name has_label) problem_id =
      ((if has_label then
          min ((get_problem_label_stats c problem_id).1 + 1)
            (get_problem_label_stats c problem_id).2
        else max ((get_problem_label_stats c problem_id).1 - 1) 0),
        (get_problem_label_stats c problem_id).2) := by
  simp only [get_agent_submission] at hres
  unfold update_problem_label_stats
  simp only [hres]
  cases hgp : get_problem w problem_id with
  | none =>
    simp [get_problem_label_stats, lookupA_setA]
  | some problem =>
    simp [get_problem_label_stats, problem_stats_update_repo, lookupA_setA,
      update_repo_stats_for_problem_change]

/-- C3: when the submission lookup finds a resolved submission, the stored
problem tuple moves from (labeled, total) to (min (labeled+1) total, total)
on has_label = true and to (max (labeled-1) 0, total) on has_label = false;
in particular a true call at labeled = total and a false call at labeled = 0
leave the tuple unchanged. -/
theorem claim_C3_update_clamped (w : World) (c : LabelStatsCache)
    (problem_id agent_name : String) (has_label : Bool) (labeled total : Int)
    (hres : get_agent_submission w agent_name problem_id = some true)
    (hcur : get_problem_label_stats c problem_id = (labeled, total)) :
    (get_problem_label_stats
        (update_problem_label_stats w c problem_id agent_name has_label) problem_id =
      ((if has_label then min (labeled + 1) total else max (labeled - 1) 0), total)) ∧
    (has_label = true → labeled = total →
      get_problem_label_stats
        (update_problem_label_stats w c problem_id agent_name has_label) problem_id =
        (labeled, total)) ∧
    (has_label = false → labeled = 0 →
      get_problem_label_stats
        (update_problem_label_stats w c problem_id agent_name has_label) problem_id =
        (labeled, total)) := by
  have hmain := update_resolved_problem_stats w c problem_id agent_name has_label hres
  rw [hcur] at hmain
  refine ⟨hmain, ?_, ?_⟩
  · rintro rfl rfl
    rw [hmain]
    have hm : min (labeled + 1) labeled = labeled := min_eq_right (by omega)
    simp [hm]
  · rintro rfl rfl
    rw [hmain]
    simp

/-- Witness for C3: in wSmall, problem P has cached tuple (1, 2) after a
rebuild, agent Y is resolved, and labelling Y moves the tuple to (2, 2). -/
theorem claim_C3_witness :
    get_agent_submission wSmall "Y" "P" = some true ∧
    get_problem_label_stats (rebuild_cache wSmall LabelStatsCache.empty) "P" = (1, 2) ∧
    get_problem_label_stats
        (update_problem_label_stats wSmall (rebuild_cache wSmall LabelStatsCache.empty)
          "P" "Y" true) "P" =
      ((if true then min ((1 : Int) + 1) 2 else max ((1 : Int) - 1) 0), 2) :=
  ⟨by decide, by decide,
    (claim_C3_update_clamped wSmall (rebuild_cache wSmall LabelStatsCache.empty)
      "P" "Y" true 1 2 (by decide) (by decide)).1⟩

/-- C4: a call whose submission lookup finds no submission, or an unresolved
one, changes nothing at all: the entire cache state is returned unchanged. -/
theorem claim_C4_noop_unresolved (w : World) (c : LabelStatsCache)
    (problem_id agent_name : String) (has_label : Bool)
    (h : get_agent_submission w agent_name problem_id = none ∨
         get_agent_submission w agent_name problem_id = some false) :
    update_problem_label_stats w c problem_id agent_name has_label = c := by
  simp only [get_agent_submission] at h
  unfold update_problem_label_stats
  rcases h with h | h
  · simp only [h]
  · simp only [h]
    simp

/-- Witness for C4: in wSmall agent Z's submission for P is unresolved, and
the update call leaves the rebuilt cache exactly as it was. -/
theorem claim_C4_witness :
    get_agent_submission wSmall "Z" "P" = some false ∧
    update_problem_label_stats wSmall (rebuild_cache wSmall LabelStatsCache.empty)
        "P" "Z" true = rebuild_cache wSmall LabelStatsCache.empty :=
  ⟨by decide,
    claim_C4_noop_unresolved wSmall (rebuild_cache wSmall LabelStatsCache.empty)
      "P" "Z" true (Or.inr (by decide))⟩

/-- C9: rebuild_cache clears both mappings before recomputing them from the
external state alone, so a second rebuild over unchanged data returns
exactly the mappings of the first, from any starting cache state. -/
theorem claim_C9_rebuild_idempotent (w : World) (c : LabelStatsCache) :
    rebuild_cache w (rebuild_cache w c) = rebuild_cache w c := rfl

/-- C10: the two getters are total lookups into the in-memory mappings: an
absent key yields the defined default (0, 0) rather than an error, and the
getters neither touch the filesystem (they take no external state) nor
modify the cache (they are pure functions of it). -/
theorem claim_C10_getters_default (c : LabelStatsCache) (problem_id repo_name : String) :
    (lookupA c.problem_stats problem_id = none →
      get_problem_label_stats c problem_id = (0, 0)) ∧
    (lookupA c.repo_stats repo_name = none →
      get_repo_label_stats c repo_name = (0, 0)) := by
  constructor
  · intro h
    simp [get_problem_label_stats, h]
  · intro h
    simp [get_repo_label_stats, h]

/-- Witness for C10: the empty cache has no entry for problem P or repo r,
and both getters return (0, 0) there. -/
theorem claim_C10_witness :
    get_problem_label_stats LabelStatsCache.empty "P" = (0, 0) ∧
    get_repo_label_stats LabelStatsCache.empty "r" = (0, 0) :=
  ⟨(claim_C10_getters_default LabelStatsCache.empty "P" "r").1 rfl,
    (claim_C10_getters_default LabelStatsCache.empty "P" "r").2 rfl⟩

/-! ### The bounds invariant (claim C2) -/

/-- Every stored tuple of a stats mapping is a nonnegative pair with first
component at most the second. -/
def StatsBounded (m : List (String × (Int × Int))) : Prop :=
  ∀ kv ∈ m, 0 ≤ kv.2.1 ∧ kv.2.1 ≤ kv.2.2

theorem statsBounded_setA {m : List (String × (Int × Int))} {k : String} {v : Int × Int}
    (hm : StatsBounded m) (h0 : 0 ≤ v.1) (h1 : v.1 ≤ v.2) : StatsBounded (setA m k v) := by
  intro kv hkv
  rcases mem_setA hkv with h | h
  · exact hm kv h
  · rw [h]
    exact ⟨h0, h1⟩

theorem statsBounded_getD {m : List (String × (Int × Int))} (hm : StatsBounded m)
    (k : String) :
    0 ≤ ((lookupA m k).getD (0, 0)).1 ∧
      ((lookupA m k).getD (0, 0)).1 ≤ ((lookupA m k).getD (0, 0)).2 := by
  cases h : lookupA m k with
  | none => simp
  | some v => simpa using hm (k, v) (lookupA_mem h)

/-- The relational invariant between the two per-repo counter dicts of
rebuild_cache: each fully-labeled count is between 0 and the issue count. -/
def CountersOk (fully issue : List (String × Int)) : Prop :=
  ∀ r, 0 ≤ (lookupA fully r).getD 0 ∧
    (lookupA fully r).getD 0 ≤ (lookupA issue r).getD 0

/-- The loop invariant of the per-problem loop of rebuild_cache that the
bounds claim needs. -/
def RebuildAccOk (acc : RebuildAcc) : Prop :=
  StatsBounded acc.problem_stats ∧
  CountersOk acc.repo_fully_labeled_counts acc.repo_issue_counts ∧
  (acc.repo_issue_counts.map Prod.fst).Nodup

theorem labeledResolved_le_totalResolved (w : World) (pid : String) :
    0 ≤ labeledResolvedCount w pid ∧
      labeledResolvedCount w pid ≤ totalResolvedCount w pid := by
  refine ⟨Int.ofNat_nonneg _, ?_⟩
  simp only [labeledResolvedCount, totalResolvedCount, resolved_agents_with_labels]
  exact_mod_cast List.length_filter_le _ _

theorem rebuildStep_ok (w : World) (acc : RebuildAcc) (p : Problem)
    (h : RebuildAccOk acc) : RebuildAccOk (rebuildStep w acc p) := by
  unfold rebuildStep
  by_cases htot : totalResolvedCount w p.problem_id = 0
  · simpa [htot] using h
  · obtain ⟨hps, hcnt, hnd⟩ := h
    simp only [if_neg htot]
    refine ⟨?_, ?_, ?_⟩
    · exact statsBounded_setA hps (labeledResolved_le_totalResolved w p.problem_id).1
        (labeledResolved_le_totalResolved w p.problem_id).2
    · intro r
      rcases hcnt r with ⟨h0, h1⟩
      by_cases hr : r = p.repo
      · subst hr
        by_cases hfull : totalResolvedCount w p.problem_id > 0 ∧
            labeledResolvedCount w p.problem_id = totalResolvedCount w p.problem_id
        · simp only [if_pos hfull, lookupA_setA, if_pos rfl]
          constructor
          · simpa using le_trans h0 (by omega)
          · simpa using by omega
        · simp only [if_neg hfull, lookupA_setA, if_pos rfl]
          constructor
          · simpa using h0
          · simpa using le_trans h1 (by omega)
      · rcases hcnt r with ⟨h0, h1⟩
        by_cases hfull : totalResolvedCount w p.problem_id > 0 ∧
            labeledResolvedCount w p.problem_id = totalResolvedCount w p.problem_id
        · simpa [if_pos hfull, lookupA_setA, hr] using ⟨h0, h1⟩
        · simpa [if_neg hfull, lookupA_setA, hr] using ⟨h0, h1⟩
    · exact nodup_keys_setA _ hnd

theorem rebuild_foldl_ok (w : World) (ps : List Problem) (acc : RebuildAcc)
    (h : RebuildAccOk acc) : RebuildAccOk (ps.foldl (rebuildStep w) acc) := by
  induction ps generalizing acc with
  | nil => exact h
  | cons p rest ih => exact ih _ (rebuildStep_ok w acc p h)

theorem repoStore_foldl_bounded (fully : List (String × Int))
    (counts : List (String × Int)) (init : List (String × (Int × Int)))
    (hinit : StatsBounded init)
    (hb : ∀ kv ∈ counts, 0 ≤ (lookupA fully kv.1).getD 0 ∧
      (lookupA fully kv.1).getD 0 ≤ kv.2) :
    StatsBounded (counts.foldl (repoStoreStep fully) init) := by
  induction counts generalizing init with
  | nil => exact hinit
  | cons kv rest ih =>
    refine ih _ ?_ ?_
    · exact statsBounded_setA hinit (hb kv (List.mem_cons_self kv rest)).1
        (hb kv (List.mem_cons_self kv rest)).2
    · intro kv2 hkv2
      exact hb kv2 (List.mem_cons_of_mem _ hkv2)

theorem rebuild_cache_bounded (w : World) (c : LabelStatsCache) :
    StatsBounded (rebuild_cache w c).problem_stats ∧
      StatsBounded (rebuild_cache w c).repo_stats := by
  have hk : RebuildAccOk ((get_problems w none).foldl (rebuildStep w) ⟨[], [], []⟩) := by
    apply rebuild_foldl_ok
    refine ⟨?_, ?_, ?_⟩
    · intro kv hkv
      simp at hkv
    · intro r
      simp [lookupA]
    · simp
  obtain ⟨hps, hcnt, hnd⟩ := hk
  refine ⟨hps, ?_⟩
  apply repoStore_foldl_bounded
  · intro kv hkv
    simp at hkv
  · intro kv hkv
    have hlk := lookupA_of_mem_nodup hnd hkv
    rcases hcnt kv.1 with ⟨h0, h1⟩
    rw [hlk] at h1
    exact ⟨h0, by simpa using h1⟩

theorem repo_recount_bounded (c : LabelStatsCache) (ps : List Problem) (nc : Int × Int)
    (h0 : 0 ≤ nc.1) (h1 : nc.1 ≤ nc.2) :
    0 ≤ (ps.foldl (fun (nc : Int × Int) problem =>
        let prob := (lookupA c.problem_stats problem.problem_id).getD (0, 0)
        if prob.2 > 0 then
          ((if prob.1 = prob.2 then nc.1 + 1 else nc.1), nc.2 + 1)
        else nc) nc).1 ∧
      (ps.foldl (fun (nc : Int × Int) problem =>
        let prob := (lookupA c.problem_stats problem.problem_id).getD (0, 0)
        if prob.2 > 0 then
          ((if prob.1 = prob.2 then nc.1 + 1 else nc.1), nc.2 + 1)
        else nc) nc).2 ≥ (ps.foldl (fun (nc : Int × Int) problem =>
        let prob := (lookupA c.problem_stats problem.problem_id).getD (0, 0)
        if prob.2 > 0 then
          ((if prob.1 = prob.2 then nc.1 + 1 else nc.1), nc.2 + 1)
        else nc) nc).1 := by
  induction ps generalizing nc with
  | nil => exact ⟨h0, h1⟩
  | cons p rest ih =>
    simp only [List.foldl_cons]
    apply ih
    · dsimp only
      split
      · split <;> omega
      · omega
    · dsimp only
      split
      · split <;> omega
      · omega

theorem update_bounded (w : World) (c : LabelStatsCache)
    (problem_id agent_name : String) (has_label : Bool)
    (h : StatsBounded c.problem_stats ∧ StatsBounded c.repo_stats) :
    StatsBounded (update_problem_label_stats w c problem_id agent_name has_label).problem_stats ∧
      StatsBounded (update_problem_label_stats w c problem_id agent_name has_label).repo_stats := by
  obtain ⟨hps, hrs⟩ := h
  cases hsub : lookupA (get_all_agent_submissions w problem_id) agent_name with
  | none =>
    unfold update_problem_label_stats
    simp only [hsub]
    exact ⟨hps, hrs⟩
  | some resolved =>
    cases resolved with
    | false =>
      unfold update_problem_label_stats
      simp only [hsub]
      simpa using ⟨hps, hrs⟩
    | true =>
      unfold update_problem_label_stats
      simp only [hsub, Bool.not_true, Bool.false_eq_true, if_false]
      obtain ⟨hl0, hl1⟩ := statsBounded_getD hps problem_id
      have hb : StatsBounded (setA c.problem_stats problem_id
          ((if has_label then
              min (((lookupA c.problem_stats problem_id).getD (0, 0)).1 + 1)
                ((lookupA c.problem_stats problem_id).getD (0, 0)).2
            else max (((lookupA c.problem_stats problem_id).getD (0, 0)).1 - 1) 0),
            ((lookupA c.problem_stats problem_id).getD (0, 0)).2)) := by
        apply statsBounded_setA hps
        · dsimp only
          split
          · exact le_min (by omega) (by omega)
          · exact le_max_right _ _
        · dsimp only
          split
          · exact min_le_right _ _
          · exact max_le (by omega) (by omega)
      cases hgp : get_problem w problem_id with
      | none =>
        simp only [hgp]
        exact ⟨hb, hrs⟩
      | some problem =>
        simp only [hgp]
        refine ⟨hb, ?_⟩
        unfold update_repo_stats_for_problem_change
        apply statsBounded_setA hrs
        · exact (repo_recount_bounded _ _ (0, 0) le_rfl le_rfl).1
        · exact (repo_recount_bounded _ _ (0, 0) le_rfl le_rfl).2

/-- C2: in every cache state reachable from the empty cache by rebuilds and
incremental updates, every stored problem tuple satisfies
0 ≤ labeled_resolved_count ≤ total_resolved_count and every stored repo
tuple satisfies 0 ≤ fully_labeled ≤ total_issues_with_resolved_agents. -/
theorem claim_C2_invariants (c : LabelStatsCache) (h : Reachable c) :
    (∀ kv ∈ c.problem_stats, 0 ≤ kv.2.1 ∧ kv.2.1 ≤ kv.2.2) ∧
    (∀ kv ∈ c.repo_stats, 0 ≤ kv.2.1 ∧ kv.2.1 ≤ kv.2.2) := by
  induction h with
  | empty =>
    constructor <;> intro kv hkv <;> simp [LabelStatsCache.empty] at hkv
  | rebuild w c _ _ => exact rebuild_cache_bounded w c
  | update w c problem_id agent_name has_label _ ih =>
    exact update_bounded w c problem_id agent_name has_label ih

/-- Witness for C2: a concrete reachable state (rebuild over wSmall, then a
label added for the resolved agent Y of P) stores the problem tuple (2, 2),
which satisfies the bounds. -/
theorem claim_C2_witness :
    ("P", ((2 : Int), (2 : Int))) ∈
        (update_problem_label_stats wSmall (rebuild_cache wSmall LabelStatsCache.empty)
          "P" "Y" true).problem_stats ∧
    (0 : Int) ≤ 2 ∧ (2 : Int) ≤ 2 :=
  ⟨by decide,
    (claim_C2_invariants
        (update_problem_label_stats wSmall (rebuild_cache wSmall LabelStatsCache.empty)
          "P" "Y" true)
        (Reachable.update wSmall (rebuild_cache wSmall LabelStatsCache.empty) "P" "Y" true
          (Reachable.rebuild wSmall LabelStatsCache.empty Reachable.empty))).1
      ("P", (2, 2)) (by decide)⟩

/-! ### What rebuild_cache computes (claims C5, C1) -/

theorem orderedInsertP_perm (p : Problem) (l : List Problem) :
    List.Perm (orderedInsertP p l) (p :: l) := by
  induction l with
  | nil => exact List.Perm.refl _
  | cons q qs ih =>
    unfold orderedInsertP
    split
    · exact List.Perm.refl _
    · exact List.Perm.trans (List.Perm.cons q ih) (List.Perm.swap p q qs)

theorem sortedByProblemId_perm (l : List Problem) :
    List.Perm (sortedByProblemId l) l := by
  induction l with
  | nil => exact List.Perm.refl _
  | cons p ps ih =>
    exact List.Perm.trans (orderedInsertP_perm p (sortedByProblemId ps)) (List.Perm.cons p ih)

theorem get_problems_none_perm (w : World) :
    List.Perm (get_problems w none) w.problems := sortedByProblemId_perm w.problems

theorem get_problems_some_perm (w : World) (r : String) (hr : r ≠ "") :
    List.Perm (get_problems w (some r)) (w.problems.filter (fun p => p.repo == r)) := by
  unfold get_problems
  simp only [if_neg hr]
  exact sortedByProblemId_perm _

/-- What the per-problem loop leaves in the problem-stats dict: an entry for
exactly the processed problems that have a resolved agent, carrying the
(labeled_resolved, total_resolved) counts of the external state. -/
theorem rebuild_fold_problem_stats (w : World) (ps : List Problem) (acc : RebuildAcc)
    (pid : String) :
    lookupA ((ps.foldl (rebuildStep w) acc).problem_stats) pid =
      if ∃ p ∈ ps, p.problem_id = pid ∧ totalResolvedCount w p.problem_id ≠ 0 then
        some (labeledResolvedCount w pid, totalResolvedCount w pid)
      else lookupA acc.problem_stats pid := by
  induction ps generalizing acc with
  | nil => simp
  | cons p rest ih =>
    simp only [List.foldl_cons]
    rw [ih]
    by_cases htot : totalResolvedCount w p.problem_id = 0
    · have hstep : rebuildStep w acc p = acc := by
        unfold rebuildStep
        simp [htot]
      rw [hstep]
      by_cases hex : ∃ q ∈ rest, q.problem_id = pid ∧ totalResolvedCount w q.problem_id ≠ 0
      · rw [if_pos hex, if_pos (by
          rcases hex with ⟨q, hq, h1, h2⟩
          exact ⟨q, List.mem_cons_of_mem _ hq, h1, h2⟩)]
      · rw [if_neg hex, if_neg (by
          rintro ⟨q, hq, h1, h2⟩
          rcases List.mem_cons.mp hq with rfl | hq2
          · exact h2 htot
          · exact hex ⟨q, hq2, h1, h2⟩)]
    · have hstep : (rebuildStep w acc p).problem_stats =
          setA acc.problem_stats p.problem_id
            (labeledResolvedCount w p.problem_id, totalResolvedCount w p.problem_id) := by
        unfold rebuildStep
        simp [htot]
      by_cases hpid : p.problem_id = pid
      · have hcons : ∃ q ∈ p :: rest, q.problem_id = pid ∧
            totalResolvedCount w q.problem_id ≠ 0 :=
          ⟨p, List.mem_cons_self p rest, hpid, htot⟩
        rw [if_pos hcons]
        by_cases hex : ∃ q ∈ rest, q.problem_id = pid ∧ totalResolvedCount w q.problem_id ≠ 0
        · rw [if_pos hex]
        · rw [if_neg hex, hstep, lookupA_setA, if_pos hpid.symm, hpid]
      · by_cases hex : ∃ q ∈ rest, q.problem_id = pid ∧ totalResolvedCount w q.problem_id ≠ 0
        · rw [if_pos hex, if_pos (by
            rcases hex with ⟨q, hq, h1, h2⟩
            exact ⟨q, List.mem_cons_of_mem _ hq, h1, h2⟩)]
        · rw [if_neg hex, if_neg (by
            rintro ⟨q, hq, h1, h2⟩
            rcases List.mem_cons.mp hq with rfl | hq2
            · exact hpid h1
            · exact hex ⟨q, hq2, h1, h2⟩), hstep,
            lookupA_setA, if_neg (fun h => hpid h.symm)]

/-- What the per-problem loop leaves in repo_issue_counts: for each repo, an
entry counting its processed problems that have a resolved agent (absent if
the repo never occurred and was absent before). -/
theorem rebuild_fold_issue_counts (w : World) (ps : List Problem) (acc : RebuildAcc)
    (r : String) :
    lookupA ((ps.foldl (rebuildStep w) acc).repo_issue_counts) r =
      if (∃ p ∈ ps, p.repo = r ∧ totalResolvedCount w p.problem_id ≠ 0) ∨
          (lookupA acc.repo_issue_counts r).isSome then
        some ((ps.countP (fun p =>
            p.repo == r && decide (0 < totalResolvedCount w p.problem_id)) : Int) +
          (lookupA acc.repo_issue_counts r).getD 0)
      else none := by
  induction ps generalizing acc with
  | nil =>
    cases h : lookupA acc.repo_issue_counts r <;> simp [h]
  | cons p rest ih =>
    have htot0 : 0 ≤ totalResolvedCount w p.problem_id := Int.ofNat_nonneg _
    simp only [List.foldl_cons]
    rw [ih]
    by_cases htot : totalResolvedCount w p.problem_id = 0
    · have hstep : rebuildStep w acc p = acc := by
        unfold rebuildStep
        simp [htot]
      have hpred : (fun p => p.repo == r &&
          decide (0 < totalResolvedCount w p.problem_id)) p = false := by
        simp [htot]
      rw [hstep, List.countP_cons_of_neg _ _ (by simpa using hpred)]
      by_cases hex : (∃ q ∈ rest, q.repo = r ∧ totalResolvedCount w q.problem_id ≠ 0) ∨
          (lookupA acc.repo_issue_counts r).isSome
      · rw [if_pos hex, if_pos (by
          rcases hex with ⟨q, hq, h1, h2⟩ | hs
          · exact Or.inl ⟨q, List.mem_cons_of_mem _ hq, h1, h2⟩
          · exact Or.inr hs)]
      · rw [if_neg hex, if_neg (by
          rintro (⟨q, hq, h1, h2⟩ | hs)
          · rcases List.mem_cons.mp hq with rfl | hq2
            · exact h2 htot
            · exact hex (Or.inl ⟨q, hq2, h1, h2⟩)
          · exact hex (Or.inr hs))]
    · have hstep : (rebuildStep w acc p).repo_issue_counts =
          setA acc.repo_issue_counts p.repo
            ((lookupA acc.repo_issue_counts p.repo).getD 0 + 1) := by
        unfold rebuildStep
        simp [htot]
      by_cases hr : p.repo = r
      · have hpred : (fun p => p.repo == r &&
            decide (0 < totalResolvedCount w p.problem_id)) p = true := by
          simp [hr, htot]
          omega
        have hcons : (∃ q ∈ p :: rest, q.repo = r ∧ totalResolvedCount w q.problem_id ≠ 0) ∨
            (lookupA acc.repo_issue_counts r).isSome :=
          Or.inl ⟨p, List.mem_cons_self p rest, hr, htot⟩
        have hsetA : lookupA (rebuildStep w acc p).repo_issue_counts r =
            some ((lookupA acc.repo_issue_counts r).getD 0 + 1) := by
          rw [hstep, ← hr, lookupA_setA, if_pos rfl]
        rw [if_pos hcons, if_pos (Or.inr (by simp [hsetA])), hsetA,
          List.countP_cons_of_pos _ _ (by simpa using hpred)]
        simp only [Option.getD_some]
        refine congrArg some ?_
        push_cast
        ring1
      · have hpred : (fun p => p.repo == r &&
            decide (0 < totalResolvedCount w p.problem_id)) p = false := by
          simp [hr]
        have hsetA : lookupA (rebuildStep w acc p).repo_issue_counts r =
            lookupA acc.repo_issue_counts r := by
          rw [hstep, lookupA_setA, if_neg (fun h => hr h.symm)]
        rw [List.countP_cons_of_neg _ _ (by simpa using hpred), hsetA]
        by_cases hex : (∃ q ∈ rest, q.repo = r ∧ totalResolvedCount w q.problem_id ≠ 0) ∨
            (lookupA acc.repo_issue_counts r).isSome
        · rw [if_pos hex, if_pos (by
            rcases hex with ⟨q, hq, h1, h2⟩ | hs
            · exact Or.inl ⟨q, List.mem_cons_of_mem _ hq, h1, h2⟩
            · exact Or.inr hs)]
        · rw [if_neg hex, if_neg (by
            rintro (⟨q, hq, h1, h2⟩ | hs)
            · rcases List.mem_cons.mp hq with rfl | hq2
              · exact hr h1
              · exact hex (Or.inl ⟨q, hq2, h1, h2⟩)
            · exact hex (Or.inr hs))]

/-- What the per-problem loop leaves in repo_fully_labeled_counts: for each
repo, the count of its processed problems that qualify and whose resolved
agents all carry labels. -/
theorem rebuild_fold_fully_counts (w : World) (ps : List Problem) (acc : RebuildAcc)
    (r : String) :
    (lookupA ((ps.foldl (rebuildStep w) acc).repo_fully_labeled_counts) r).getD 0 =
      ((ps.countP (fun p => p.repo == r &&
          decide (0 < totalResolvedCount w p.problem_id) &&
          decide (labeledResolvedCount w p.problem_id =
            totalResolvedCount w p.problem_id))) : Int) +
        (lookupA acc.repo_fully_labeled_counts r).getD 0 := by
  induction ps generalizing acc with
  | nil => simp
  | cons p rest ih =>
    have htot0 : 0 ≤ totalResolvedCount w p.problem_id := Int.ofNat_nonneg _
    simp only [List.foldl_cons]
    rw [ih]
    by_cases htot : totalResolvedCount w p.problem_id = 0
    · have hstep : rebuildStep w acc p = acc := by
        unfold rebuildStep
        simp [htot]
      rw [hstep, List.countP_cons_of_neg _ _ (by simp [htot])]
    · by_cases hfull : labeledResolvedCount w p.problem_id = totalResolvedCount w p.problem_id
      · have hstep : (rebuildStep w acc p).repo_fully_labeled_counts =
            setA acc.repo_fully_labeled_counts p.repo
              ((lookupA acc.repo_fully_labeled_counts p.repo).getD 0 + 1) := by
          unfold rebuildStep
          have : totalResolvedCount w p.problem_id > 0 := by omega
          simp [htot, hfull, this]
        by_cases hr : p.repo = r
        · rw [hstep, ← hr, lookupA_setA, if_pos rfl,
            List.countP_cons_of_pos _ _ (by simp [hr, hfull]; omega)]
          simp only [Option.getD_some]
          push_cast
          ring1
        · rw [hstep, lookupA_setA, if_neg (fun h => hr h.symm),
            List.countP_cons_of_neg _ _ (by simp [hr])]
      · have hstep : (rebuildStep w acc p).repo_fully_labeled_counts =
            acc.repo_fully_labeled_counts := by
          unfold rebuildStep
          simp [htot, hfull]
        rw [hstep, List.countP_cons_of_neg _ _ (by simp [hfull])]

/-- Lookup in the repo-stats dict built by the final loop of rebuild_cache. -/
theorem lookup_repoStore_foldl (fully counts : List (String × Int))
    (init : List (String × (Int × Int)))
    (hnd : (counts.map Prod.fst).Nodup) (r : String) :
    lookupA (counts.foldl (repoStoreStep fully) init) r =
      match lookupA counts r with
      | some n => some ((lookupA fully r).getD 0, n)
      | none => lookupA init r := by
  induction counts generalizing init with
  | nil => simp [lookupA]
  | cons kv rest ih =>
    simp only [List.foldl_cons]
    have hnd2 : kv.1 ∉ rest.map Prod.fst ∧ (rest.map Prod.fst).Nodup := by
      rw [List.map_cons] at hnd
      exact List.nodup_cons.mp hnd
    rw [ih _ hnd2.2]
    by_cases hr : kv.1 = r
    · have hrest : lookupA rest r = none := by
        rw [lookupA_eq_none_iff]
        intro kv2 hkv2 hcontra
        exact hnd2.1 (by
          rw [hr]
          exact List.mem_map.mpr ⟨kv2, hkv2, hcontra⟩)
      rw [hrest]
      simp only [lookupA, if_pos hr]
      rw [repoStoreStep, ← hr, lookupA_setA, if_pos rfl, hr]
    · simp only [lookupA, if_neg hr]
      cases hrest : lookupA rest r with
      | some n => simp
      | none =>
        simp only []
        rw [repoStoreStep, lookupA_setA, if_neg (fun h => hr h.symm)]

theorem rebuild_cache_problem_stats (w : World) (c : LabelStatsCache) :
    (rebuild_cache w c).problem_stats =
      ((get_problems w none).foldl (rebuildStep w) ⟨[], [], []⟩).problem_stats := rfl

theorem rebuild_cache_repo_stats (w : World) (c : LabelStatsCache) :
    (rebuild_cache w c).repo_stats =
      ((get_problems w none).foldl (rebuildStep w) ⟨[], [], []⟩).repo_issue_counts.foldl
        (repoStoreStep
          ((get_problems w none).foldl (rebuildStep w) ⟨[], [], []⟩).repo_fully_labeled_counts)
        [] := rfl

theorem rebuildAccOk_init : RebuildAccOk ⟨[], [], []⟩ := by
  refine ⟨?_, ?_, ?_⟩
  · intro kv hkv
    simp at hkv
  · intro r
    simp [lookupA]
  · simp

/-- After rebuild_cache, the problem-stats mapping has an entry for exactly
the known problems with at least one resolved agent, holding the true
counts of the external state. -/
theorem rebuild_problem_stats_lookup (w : World) (c : LabelStatsCache) (pid : String) :
    lookupA (rebuild_cache w c).problem_stats pid =
      if ∃ p ∈ w.problems, p.problem_id = pid ∧ totalResolvedCount w p.problem_id ≠ 0 then
        some (labeledResolvedCount w pid, totalResolvedCount w pid)
      else none := by
  rw [rebuild_cache_problem_stats, rebuild_fold_problem_stats]
  have hmem : ∀ p : Problem, p ∈ get_problems w none ↔ p ∈ w.problems :=
    fun p => (get_problems_none_perm w).mem_iff
  by_cases hex : ∃ p ∈ w.problems, p.problem_id = pid ∧ totalResolvedCount w p.problem_id ≠ 0
  · rcases hex with ⟨p, hp, h1, h2⟩
    rw [if_pos ⟨p, (hmem p).mpr hp, h1, h2⟩,
      if_pos ⟨p, hp, h1, h2⟩]
  · rw [if_neg (by
      rintro ⟨p, hp, h1, h2⟩
      exact hex ⟨p, (hmem p).mp hp, h1, h2⟩),
      if_neg hex]
    simp [lookupA]

/-- After rebuild_cache, the repo-stats mapping has an entry for exactly the
repositories with at least one qualifying problem, holding the true
(fully_labeled, with_resolved) counts of the external state. -/
theorem rebuild_repo_stats_lookup (w : World) (c : LabelStatsCache) (r : String) :
    lookupA (rebuild_cache w c).repo_stats r =
      if ∃ p ∈ w.problems, p.repo = r ∧ totalResolvedCount w p.problem_id ≠ 0 then
        some (repoFullyLabeledCount w r, repoQualifyingCount w r)
      else none := by
  have hok := rebuild_foldl_ok w (get_problems w none) ⟨[], [], []⟩ rebuildAccOk_init
  rw [rebuild_cache_repo_stats, lookup_repoStore_foldl _ _ _ hok.2.2 r,
    rebuild_fold_issue_counts]
  have hperm := get_problems_none_perm w
  have hmem : ∀ p : Problem, p ∈ get_problems w none ↔ p ∈ w.problems :=
    fun p => hperm.mem_iff
  by_cases hex : ∃ p ∈ w.problems, p.repo = r ∧ totalResolvedCount w p.problem_id ≠ 0
  · rcases hex with ⟨p, hp, h1, h2⟩
    rw [if_pos (Or.inl ⟨p, (hmem p).mpr hp, h1, h2⟩),
      if_pos ⟨p, hp, h1, h2⟩]
    simp only []
    rw [rebuild_fold_fully_counts]
    have hq : ((get_problems w none).countP (fun p =>
        p.repo == r && decide (0 < totalResolvedCount w p.problem_id)) : Int) =
        repoQualifyingCount w r := by
      unfold repoQualifyingCount
      exact_mod_cast hperm.countP_eq _
    have hf : ((get_problems w none).countP (fun p =>
        p.repo == r && decide (0 < totalResolvedCount w p.problem_id) &&
        decide (labeledResolvedCount w p.problem_id =
          totalResolvedCount w p.problem_id)) : Int) =
        repoFullyLabeledCount w r := by
      unfold repoFullyLabeledCount
      exact_mod_cast hperm.countP_eq _
    simp only [lookupA, Option.getD_none]
    rw [hq, hf]
    simp
  · rw [if_neg (by
      rintro (⟨p, hp, h1, h2⟩ | hs)
      · exact hex ⟨p, (hmem p).mp hp, h1, h2⟩
      · simp [lookupA] at hs),
      if_neg hex]
    simp [lookupA]

theorem totalResolvedCount_nonneg (w : World) (pid : String) :
    0 ≤ totalResolvedCount w pid := Int.ofNat_nonneg _

/-- C5: after rebuild_cache, a known problem with no resolved agents is
absent from the problem-stats mapping; one with resolved agents is stored
with its true (labeled_resolved, total_resolved) counts; every repository
with a qualifying problem is stored with its true
(fully_labeled, with_resolved) counts, and every other repository is
absent from the repo-stats mapping. -/
theorem claim_C5_rebuild_correct (w : World) (c : LabelStatsCache) :
    (∀ p ∈ w.problems,
      (totalResolvedCount w p.problem_id = 0 →
        lookupA (rebuild_cache w c).problem_stats p.problem_id = none) ∧
      (totalResolvedCount w p.problem_id ≠ 0 →
        lookupA (rebuild_cache w c).problem_stats p.problem_id =
          some (labeledResolvedCount w p.problem_id, totalResolvedCount w p.problem_id))) ∧
    (∀ r : String,
      ((∃ p ∈ w.problems, p.repo = r ∧ totalResolvedCount w p.problem_id ≠ 0) →
        lookupA (rebuild_cache w c).repo_stats r =
          some (repoFullyLabeledCount w r, repoQualifyingCount w r)) ∧
      ((¬ ∃ p ∈ w.problems, p.repo = r ∧ totalResolvedCount w p.problem_id ≠ 0) →
        lookupA (rebuild_cache w c).repo_stats r = none)) := by
  constructor
  · intro p hp
    constructor
    · intro htot
      rw [rebuild_problem_stats_lookup, if_neg]
      rintro ⟨q, _, h1, h2⟩
      exact h2 (by rw [h1]; exact htot)
    · intro htot
      rw [rebuild_problem_stats_lookup, if_pos ⟨p, hp, rfl, htot⟩]
  · intro r
    constructor
    · intro hex
      rw [rebuild_repo_stats_lookup, if_pos hex]
    · intro hex
      rw [rebuild_repo_stats_lookup, if_neg hex]

/-- Witness for C5 on wSmall: Q (no resolved agents) is absent, P is stored
as (1, 2), and repo r is stored as (0, 1). -/
theorem claim_C5_witness :
    ((⟨"Q", "r"⟩ : Problem) ∈ wSmall.problems ∧
      totalResolvedCount wSmall "Q" = 0 ∧
      lookupA (rebuild_cache wSmall LabelStatsCache.empty).problem_stats "Q" = none) ∧
    ((⟨"P", "r"⟩ : Problem) ∈ wSmall.problems ∧
      lookupA (rebuild_cache wSmall LabelStatsCache.empty).problem_stats "P" =
        some (labeledResolvedCount wSmall "P", totalResolvedCount wSmall "P")) :=
  ⟨⟨by decide, by decide,
      ((claim_C5_rebuild_correct wSmall LabelStatsCache.empty).1 ⟨"Q", "r"⟩
        (by decide)).1 (by decide)⟩,
    ⟨by decide,
      ((claim_C5_rebuild_correct wSmall LabelStatsCache.empty).1 ⟨"P", "r"⟩
        (by decide)).2 (by decide)⟩⟩

/-- rebuild_cache establishes the consistency invariant. -/
theorem rebuild_consistent (w : World) (c : LabelStatsCache) :
    Consistent w (rebuild_cache w c) := by
  constructor
  · intro p hp
    unfold get_problem_label_stats
    rw [rebuild_problem_stats_lookup]
    by_cases hex : ∃ q ∈ w.problems, q.problem_id = p.problem_id ∧
        totalResolvedCount w q.problem_id ≠ 0
    · rw [if_pos hex]
      simp
    · rw [if_neg hex]
      have htot : totalResolvedCount w p.problem_id = 0 := by
        by_contra h
        exact hex ⟨p, hp, rfl, h⟩
      have hlab : labeledResolvedCount w p.problem_id = 0 := by
        have h1 := (labeledResolved_le_totalResolved w p.problem_id).1
        have h2 := (labeledResolved_le_totalResolved w p.problem_id).2
        omega
      simp [htot, hlab]
  · intro r
    unfold get_repo_label_stats
    rw [rebuild_repo_stats_lookup]
    by_cases hex : ∃ p ∈ w.problems, p.repo = r ∧ totalResolvedCount w p.problem_id ≠ 0
    · rw [if_pos hex]
      simp
    · rw [if_neg hex]
      have hq : repoQualifyingCount w r = 0 := by
        unfold repoQualifyingCount
        have : w.problems.countP (fun p =>
            p.repo == r && decide (0 < totalResolvedCount w p.problem_id)) = 0 := by
          rw [List.countP_eq_zero]
          intro p hp
          simp only [Bool.and_eq_true, beq_iff_eq, decide_eq_true_eq, not_and]
          intro h1 h2
          exact hex ⟨p, hp, h1, by omega⟩
        simp [this]
      have hf : repoFullyLabeledCount w r = 0 := by
        unfold repoFullyLabeledCount
        have : w.problems.countP (fun p =>
            p.repo == r && decide (0 < totalResolvedCount w p.problem_id) &&
            decide (labeledResolvedCount w p.problem_id =
              totalResolvedCount w p.problem_id)) = 0 := by
          rw [List.countP_eq_zero]
          intro p hp
          simp only [Bool.and_eq_true, beq_iff_eq, decide_eq_true_eq, not_and]
          intro h
          exact absurd ⟨p, hp, h.1, by omega⟩ hex
        simp [this]
      simp [hq, hf]

/-! ### Effect of one label transition on the derived counts (claim C1) -/

theorem mem_labeledAgents (w : World) (pid x : String) :
    x ∈ get_all_labels_for_problem w pid ↔ (pid, x) ∈ w.labels := by
  unfold get_all_labels_for_problem
  constructor
  · intro h
    rcases List.mem_map.mp h with ⟨l, hl, hx⟩
    have hfst := (List.mem_filter.mp hl).2
    have : l = (pid, x) := by
      have h1 : l.1 = pid := by simpa using hfst
      rw [← h1, ← hx]
    exact this ▸ (List.mem_filter.mp hl).1
  · intro h
    exact List.mem_map.mpr ⟨(pid, x), List.mem_filter.mpr ⟨h, by simp⟩, rfl⟩

theorem labeledResolvedCount_countP (w : World) (pid : String) :
    labeledResolvedCount w pid =
      (((resolved_agents w pid).countP (fun x => decide ((pid, x) ∈ w.labels))) : Int) := by
  unfold labeledResolvedCount resolved_agents_with_labels
  rw [← List.countP_eq_length_filter]
  congr 1
  apply List.countP_congr
  intro x _
  rw [List.elem_iff, mem_labeledAgents]
  simp

theorem resolved_agents_set_labels (w : World) (L : List (String × String)) (pid : String) :
    resolved_agents { w with labels := L } pid = resolved_agents w pid := rfl

theorem totalResolvedCount_set_labels (w : World) (L : List (String × String)) (pid : String) :
    totalResolvedCount { w with labels := L } pid = totalResolvedCount w pid := rfl

theorem labels_set_labels (w : World) (L : List (String × String)) :
    (World.labels { w with labels := L }) = L := rfl

theorem resolved_agents_nodup (w : World) (pid : String)
    (h : ((w.submissions pid).map (fun s => s.1)).Nodup) :
    (resolved_agents w pid).Nodup := by
  unfold resolved_agents get_all_agent_submissions
  exact List.Nodup.sublist
    (List.Sublist.map _ (List.filter_sublist (w.submissions pid))) h

theorem mem_resolved_of_lookup_true (w : World) (pid a : String)
    (h : lookupA (w.submissions pid) a = some true) :
    a ∈ resolved_agents w pid := by
  unfold resolved_agents get_all_agent_submissions
  exact List.mem_map.mpr ⟨(a, true), List.mem_filter.mpr ⟨lookupA_mem h, by simp⟩, rfl⟩

theorem not_mem_resolved_of_lookup (w : World) (pid a : String)
    (hnd : ((w.submissions pid).map (fun s => s.1)).Nodup)
    (h : lookupA (w.submissions pid) a = none ∨ lookupA (w.submissions pid) a = some false) :
    a ∉ resolved_agents w pid := by
  intro hmem
  unfold resolved_agents get_all_agent_submissions at hmem
  rcases List.mem_map.mp hmem with ⟨s, hs, hfst⟩
  have hsnd : s.2 = true := by simpa using (List.mem_filter.mp hs).2
  have hmem2 : (a, true) ∈ w.submissions pid := by
    have : s = (a, true) := by
      rw [← hfst, ← hsnd]
    exact this ▸ (List.mem_filter.mp hs).1
  have := lookupA_of_mem_nodup (by simpa using hnd) hmem2
  rcases h with h | h <;> rw [this] at h <;> simp at h

/-- Changing the predicate at exactly one element that occurs once flips the
count by one. -/
theorem countP_flip {α : Type} [DecidableEq α] (xs : List α) (p q : α → Bool) (a : α)
    (hmem : a ∈ xs) (hnd : xs.Nodup) (hpa : p a = false) (hqa : q a = true)
    (hagree : ∀ x ∈ xs, x ≠ a → p x = q x) :
    xs.countP q = xs.countP p + 1 := by
  induction xs with
  | nil => simp at hmem
  | cons b rest ih =>
    have hnd2 := List.nodup_cons.mp hnd
    by_cases hb : b = a
    · subst hb
      rw [List.countP_cons_of_pos _ _ hqa, List.countP_cons_of_neg _ _ (by simp [hpa])]
      have : rest.countP p = rest.countP q := by
        apply List.countP_congr
        intro x hx
        rw [hagree x (List.mem_cons_of_mem _ hx) (fun h => hnd2.1 (h ▸ hx))]
      omega
    · have hmem2 : a ∈ rest := by
        rcases List.mem_cons.mp hmem with h | h
        · exact absurd h.symm hb
        · exact h
      have hrec := ih hmem2 hnd2.2
        (fun x hx hxa => hagree x (List.mem_cons_of_mem _ hx) hxa)
      have hpq : p b = q b := hagree b (List.mem_cons_self b rest) hb
      cases hpb : p b
      · rw [List.countP_cons_of_neg _ _ (by rw [← hpq, hpb]; simp),
          List.countP_cons_of_neg _ _ (by rw [hpb]; simp), hrec]
      · rw [List.countP_cons_of_pos _ _ hpb,
          List.countP_cons_of_pos _ _ (hpq ▸ hpb), hrec]

/-- Adding a label for a resolved, previously unlabeled agent raises the
labeled count of its problem by exactly one, and the new count still fits
under the total. -/
theorem labeled_count_add (w : World) (pid a : String)
    (hnd : ((w.submissions pid).map (fun s => s.1)).Nodup)
    (hres : a ∈ resolved_agents w pid)
    (hnot : (pid, a) ∉ w.labels) :
    labeledResolvedCount { w with labels := (pid, a) :: w.labels } pid =
        labeledResolvedCount w pid + 1 ∧
      labeledResolvedCount w pid + 1 ≤ totalResolvedCount w pid := by
  have hflip : (resolved_agents w pid).countP
        (fun x => decide ((pid, x) ∈ (pid, a) :: w.labels)) =
      (resolved_agents w pid).countP (fun x => decide ((pid, x) ∈ w.labels)) + 1 := by
    apply countP_flip _ _ _ a hres (resolved_agents_nodup w pid hnd)
    · simpa using hnot
    · simp
    · intro x _ hxa
      simp only [List.mem_cons, decide_eq_decide, Prod.mk.injEq]
      simp [hxa]
  constructor
  · rw [labeledResolvedCount_countP, labeledResolvedCount_countP,
      resolved_agents_set_labels, labels_set_labels, hflip]
    push_cast
    ring1
  · rw [labeledResolvedCount_countP]
    unfold totalResolvedCount
    have hle : (resolved_agents w pid).countP
        (fun x => decide ((pid, x) ∈ (pid, a) :: w.labels)) ≤
        (resolved_agents w pid).length := List.countP_le_length _
    rw [hflip] at hle
    exact_mod_cast hle

/-- Removing the label of a resolved, labeled agent lowers the labeled count
of its problem by exactly one, and that count was at least one. -/
theorem labeled_count_remove (w : World) (pid a : String)
    (hnd : ((w.submissions pid).map (fun s => s.1)).Nodup)
    (hres : a ∈ resolved_agents w pid)
    (hmem : (pid, a) ∈ w.labels) :
    labeledResolvedCount
        { w with labels := w.labels.filter (fun l => l ≠ (pid, a)) } pid =
        labeledResolvedCount w pid - 1 ∧
      1 ≤ labeledResolvedCount w pid := by
  have hflip : (resolved_agents w pid).countP (fun x => decide ((pid, x) ∈ w.labels)) =
      (resolved_agents w pid).countP
        (fun x => decide ((pid, x) ∈ w.labels.filter (fun l => l ≠ (pid, a)))) + 1 := by
    apply countP_flip _ _ _ a hres (resolved_agents_nodup w pid hnd)
    · simp only [List.mem_filter, decide_eq_false_iff_not, not_and]
      intro _
      simp
    · simpa using hmem
    · intro x _ hxa
      simp only [List.mem_filter, decide_eq_decide]
      constructor
      · exact fun h => h.1
      · intro h
        exact ⟨h, by simp [hxa]⟩
  constructor
  · rw [labeledResolvedCount_countP, labeledResolvedCount_countP,
      resolved_agents_set_labels, labels_set_labels, hflip]
    push_cast
    ring1
  · rw [labeledResolvedCount_countP]
    have h1 : 1 ≤ (resolved_agents w pid).countP
        (fun x => decide ((pid, x) ∈ w.labels)) := by
      rw [hflip]
      omega
    exact_mod_cast h1

/-- A label transition touching key (pid, a) leaves the labeled count of any
problem other than pid unchanged. -/
theorem labeled_count_other (w w' : World) (pid a : String) (hl : Bool)
    (ht : LabelTransition w pid a hl w') (q : String) (hq : q ≠ pid) :
    labeledResolvedCount w' q = labeledResolvedCount w q := by
  cases ht with
  | add =>
    rw [labeledResolvedCount_countP, labeledResolvedCount_countP,
      resolved_agents_set_labels, labels_set_labels]
    congr 1
    apply List.countP_congr
    intro x _
    simp only [decide_eq_true_eq, List.mem_cons, Prod.mk.injEq]
    constructor
    · rintro (⟨h1, _⟩ | h)
      · exact absurd h1 hq
      · exact h
    · exact fun h => Or.inr h
  | remove =>
    rw [labeledResolvedCount_countP, labeledResolvedCount_countP,
      resolved_agents_set_labels, labels_set_labels]
    congr 1
    apply List.countP_congr
    intro x _
    simp only [decide_eq_true_eq, List.mem_filter, decide_eq_true_eq]
    constructor
    · exact fun h => h.1
    · intro h
      refine ⟨h, ?_⟩
      simp only [ne_eq, Prod.mk.injEq, not_and, decide_eq_true_eq]
      intro h1
      exact absurd h1 hq

/-- A label transition for an agent that is not resolved for pid leaves even
pid's labeled count unchanged. -/
theorem labeled_count_nonresolved (w w' : World) (pid a : String) (hl : Bool)
    (ht : LabelTransition w pid a hl w')
    (hnres : a ∉ resolved_agents w pid) (q : String) :
    labeledResolvedCount w' q = labeledResolvedCount w q := by
  by_cases hq : q = pid
  · subst hq
    cases ht with
    | add =>
      rw [labeledResolvedCount_countP, labeledResolvedCount_countP,
        resolved_agents_set_labels, labels_set_labels]
      congr 1
      apply List.countP_congr
      intro x hx
      simp only [decide_eq_true_eq, List.mem_cons, Prod.mk.injEq]
      constructor
      · rintro (⟨_, h2⟩ | h)
        · exact absurd (h2 ▸ hx) hnres
        · exact h
      · exact fun h => Or.inr h
    | remove =>
      rw [labeledResolvedCount_countP, labeledResolvedCount_countP,
        resolved_agents_set_labels, labels_set_labels]
      congr 1
      apply List.countP_congr
      intro x hx
      simp only [decide_eq_true_eq, List.mem_filter, decide_eq_true_eq]
      constructor
      · exact fun h => h.1
      · intro h
        refine ⟨h, ?_⟩
        simp only [ne_eq, Prod.mk.injEq, not_and, decide_eq_true_eq]
        intro _ h2
        exact absurd (h2 ▸ hx) hnres
  · exact labeled_count_other w w' pid a hl ht q hq

theorem transition_problems {w w' : World} {pid a : String} {hl : Bool}
    (ht : LabelTransition w pid a hl w') : w'.problems = w.problems := by
  cases ht <;> rfl

theorem transition_submissions {w w' : World} {pid a : String} {hl : Bool}
    (ht : LabelTransition w pid a hl w') : w'.submissions = w.submissions := by
  cases ht <;> rfl

theorem totalResolvedCount_transition {w w' : World} {pid a : String} {hl : Bool}
    (ht : LabelTransition w pid a hl w') (q : String) :
    totalResolvedCount w' q = totalResolvedCount w q := by
  cases ht <;> rfl

theorem repoQualifyingCount_transition {w w' : World} {pid a : String} {hl : Bool}
    (ht : LabelTransition w pid a hl w') (r : String) :
    repoQualifyingCount w' r = repoQualifyingCount w r := by
  cases ht <;> rfl

theorem get_problems_transition {w w' : World} {pid a : String} {hl : Bool}
    (ht : LabelTransition w pid a hl w') (o : Option String) :
    get_problems w' o = get_problems w o := by
  cases ht <;> rfl

theorem get_problem_transition {w w' : World} {pid a : String} {hl : Bool}
    (ht : LabelTransition w pid a hl w') (q : String) :
    get_problem w' q = get_problem w q := by
  cases ht <;> rfl

/-- The update call with a missing or unresolved submission returns the
cache unchanged. -/
theorem update_noop (w : World) (c : LabelStatsCache) (pid a : String) (hl : Bool)
    (h : lookupA (w.submissions pid) a = none ∨
         lookupA (w.submissions pid) a = some false) :
    update_problem_label_stats w c pid a hl = c := by
  unfold update_problem_label_stats
  rcases h with h | h
  · simp only [show lookupA (get_all_agent_submissions w pid) a = none from h]
  · simp only [show lookupA (get_all_agent_submissions w pid) a = some false from h]
    simp

/-- The shape of the update result when the submission is resolved. -/
theorem update_resolved_eq (w : World) (c : LabelStatsCache) (pid a : String) (hl : Bool)
    (h : lookupA (w.submissions pid) a = some true) :
    update_problem_label_stats w c pid a hl =
      (match get_problem w pid with
      | none =>
        ({ c with problem_stats :=
                    setA c.problem_stats pid
                      ((if hl then
                          min (((lookupA c.problem_stats pid).getD (0, 0)).1 + 1)
                            (((lookupA c.problem_stats pid).getD (0, 0)).2)
                        else max (((lookupA c.problem_stats pid).getD (0, 0)).1 - 1) 0),
                        ((lookupA c.problem_stats pid).getD (0, 0)).2) } : LabelStatsCache)
      | some problem =>
        update_repo_stats_for_problem_change w
          ({ c with problem_stats :=
                      setA c.problem_stats pid
                        ((if hl then
                            min (((lookupA c.problem_stats pid).getD (0, 0)).1 + 1)
                              (((lookupA c.problem_stats pid).getD (0, 0)).2)
                          else max (((lookupA c.problem_stats pid).getD (0, 0)).1 - 1) 0),
                          ((lookupA c.problem_stats pid).getD (0, 0)).2) } : LabelStatsCache)
          problem.repo pid) := by
  unfold update_problem_label_stats
  simp only [show lookupA (get_all_agent_submissions w pid) a = some true from h]
  simp

theorem getter_update_repo (w : World) (c : LabelStatsCache) (r pid2 q : String) :
    get_problem_label_stats (update_repo_stats_for_problem_change w c r pid2) q =
      get_problem_label_stats c q := rfl

/-- A list with injective image keys identifies its elements by key. -/
theorem nodup_map_eq {α β : Type} {f : α → β} {l : List α} (hnd : (l.map f).Nodup)
    {x y : α} (hx : x ∈ l) (hy : y ∈ l) (h : f x = f y) : x = y := by
  induction l with
  | nil => simp at hx
  | cons b rest ih =>
    have hnd2 : f b ∉ rest.map f ∧ (rest.map f).Nodup := by
      rw [List.map_cons] at hnd
      exact List.nodup_cons.mp hnd
    rcases List.mem_cons.mp hx with rfl | hx2
    · rcases List.mem_cons.mp hy with rfl | hy2
      · rfl
      · exact absurd (h ▸ List.mem_map.mpr ⟨y, hy2, rfl⟩) hnd2.1
    · rcases List.mem_cons.mp hy with rfl | hy2
      · exact absurd (h ▸ List.mem_map.mpr ⟨x, hx2, rfl⟩) hnd2.1
      · exact ih hnd2.2 hx2 hy2

/-- What the repo recount of _update_repo_stats_for_problem_change computes:
the counts of repo problems whose cached tuple qualifies resp. is full. -/
theorem repo_recount_spec (c : LabelStatsCache) (ps : List Problem) (nc : Int × Int) :
    ps.foldl (fun (nc : Int × Int) problem =>
        let prob := (lookupA c.problem_stats problem.problem_id).getD (0, 0)
        if prob.2 > 0 then
          ((if prob.1 = prob.2 then nc.1 + 1 else nc.1), nc.2 + 1)
        else nc) nc =
      (nc.1 + ((ps.countP (fun p =>
          decide (0 < (get_problem_label_stats c p.problem_id).2) &&
          decide ((get_problem_label_stats c p.problem_id).1 =
            (get_problem_label_stats c p.problem_id).2))) : Int),
       nc.2 + ((ps.countP (fun p =>
          decide (0 < (get_problem_label_stats c p.problem_id).2))) : Int)) := by
  induction ps generalizing nc with
  | nil => simp
  | cons p rest ih =>
    simp only [List.foldl_cons]
    rw [ih]
    by_cases h2 : ((lookupA c.problem_stats p.problem_id).getD (0, 0)).2 > 0
    · by_cases h1 : ((lookupA c.problem_stats p.problem_id).getD (0, 0)).1 =
          ((lookupA c.problem_stats p.problem_id).getD (0, 0)).2
      · rw [if_pos h2, if_pos h1,
          List.countP_cons_of_pos _ _ (by
            simp only [get_problem_label_stats, Bool.and_eq_true, decide_eq_true_eq]
            exact ⟨h2, h1⟩),
          List.countP_cons_of_pos _ _ (by
            simp only [get_problem_label_stats, decide_eq_true_eq]
            exact h2)]
        simp only [Prod.mk.injEq]
        constructor <;> push_cast <;> ring1
      · rw [if_pos h2, if_neg h1,
          List.countP_cons_of_neg _ _ (by
            simp only [get_problem_label_stats, Bool.and_eq_true, decide_eq_true_eq, not_and]
            exact fun _ => h1),
          List.countP_cons_of_pos _ _ (by
            simp only [get_problem_label_stats, decide_eq_true_eq]
            exact h2)]
        simp only [Prod.mk.injEq]
        constructor <;> push_cast <;> ring1
    · rw [if_neg h2,
        List.countP_cons_of_neg _ _ (by
          simp only [get_problem_label_stats, Bool.and_eq_true, decide_eq_true_eq, not_and]
          exact fun h _ => h2 h),
        List.countP_cons_of_neg _ _ (by
          simp only [get_problem_label_stats, decide_eq_true_eq]
          exact h2)]

theorem getter_set_problem_stats (c : LabelStatsCache)
    (ps : List (String × (Int × Int))) (q : String) :
    get_problem_label_stats { c with problem_stats := ps } q =
      (lookupA ps q).getD (0, 0) := rfl

theorem repo_getter_set_problem_stats (c : LabelStatsCache)
    (ps : List (String × (Int × Int))) (r : String) :
    get_repo_label_stats { c with problem_stats := ps } r = get_repo_label_stats c r := rfl

/-- The full-repo recompute stores exactly the true counts of the external
state for the recomputed repository, provided every cached problem tuple is
already correct; everything else is untouched. -/
theorem update_repo_stats_correct (w' : World) (c1 : LabelStatsCache) (R pid2 : String)
    (hR : R ≠ "")
    (hprob : ∀ p ∈ w'.problems, get_problem_label_stats c1 p.problem_id =
      (labeledResolvedCount w' p.problem_id, totalResolvedCount w' p.problem_id)) :
    (∀ q, get_problem_label_stats (update_repo_stats_for_problem_change w' c1 R pid2) q =
      get_problem_label_stats c1 q) ∧
    (∀ r, get_repo_label_stats (update_repo_stats_for_problem_change w' c1 R pid2) r =
      if r = R then (repoFullyLabeledCount w' R, repoQualifyingCount w' R)
      else get_repo_label_stats c1 r) := by
  constructor
  · intro q
    exact getter_update_repo w' c1 R pid2 q
  · intro r
    simp only [update_repo_stats_for_problem_change, get_repo_label_stats]
    rw [repo_recount_spec, lookupA_setA]
    by_cases hrr : r = R
    · rw [if_pos hrr, if_pos hrr]
      have hperm := get_problems_some_perm w' R hR
      have hfull : ((get_problems w' (some R)).countP (fun p =>
          decide (0 < (get_problem_label_stats c1 p.problem_id).2) &&
          decide ((get_problem_label_stats c1 p.problem_id).1 =
            (get_problem_label_stats c1 p.problem_id).2))) =
          (w'.problems.countP (fun p =>
            p.repo == R && decide (0 < totalResolvedCount w' p.problem_id) &&
            decide (labeledResolvedCount w' p.problem_id =
              totalResolvedCount w' p.problem_id))) := by
        rw [hperm.countP_eq, List.countP_filter]
        apply List.countP_congr
        intro p hp
        rw [hprob p hp]
        simp only [Bool.and_eq_true, decide_eq_true_eq, beq_iff_eq]
        tauto
      have htots : ((get_problems w' (some R)).countP (fun p =>
          decide (0 < (get_problem_label_stats c1 p.problem_id).2))) =
          (w'.problems.countP (fun p =>
            p.repo == R && decide (0 < totalResolvedCount w' p.problem_id))) := by
        rw [hperm.countP_eq, List.countP_filter]
        apply List.countP_congr
        intro p hp
        rw [hprob p hp]
        simp only [Bool.and_eq_true, decide_eq_true_eq, beq_iff_eq]
        tauto
      unfold repoFullyLabeledCount repoQualifyingCount
      rw [← hfull, ← htots]
      simp
    · rw [if_neg hrr, if_neg hrr]

/-- If a world change leaves every problem's derived counts unchanged, the
consistency invariant carries over with the cache unchanged. -/
theorem counts_eq_consistent (w w' : World) (c : LabelStatsCache)
    (hprobeq : w'.problems = w.problems)
    (htotes : ∀ q, totalResolvedCount w' q = totalResolvedCount w q)
    (hlab : ∀ q, labeledResolvedCount w' q = labeledResolvedCount w q)
    (hc : Consistent w c) : Consistent w' c := by
  constructor
  · intro p hp
    rw [hlab p.problem_id, htotes p.problem_id]
    exact hc.1 p (hprobeq ▸ hp)
  · intro r
    have hrqc : repoQualifyingCount w' r = repoQualifyingCount w r := by
      unfold repoQualifyingCount
      rw [hprobeq]
      congr 1
      apply List.countP_congr
      intro p _
      rw [htotes p.problem_id]
    have hrfc : repoFullyLabeledCount w' r = repoFullyLabeledCount w r := by
      unfold repoFullyLabeledCount
      rw [hprobeq]
      congr 1
      apply List.countP_congr
      intro p _
      rw [htotes p.problem_id, hlab p.problem_id]
    rw [hrqc, hrfc]
    exact hc.2 r

/-- Consistency is preserved by an update call whose precondition check
passes, given the transition facts about the derived counts. -/
theorem resolved_step_consistent (w w' : World) (c : LabelStatsCache)
    (pid a : String) (hl : Bool)
    (hnd_ids : (w.problems.map (fun p => p.problem_id)).Nodup)
    (hrepo : ∀ p ∈ w.problems, p.repo ≠ "")
    (hsub : lookupA (w.submissions pid) a = some true)
    (hprobeq : w'.problems = w.problems)
    (hsubeq : w'.submissions = w.submissions)
    (htotes : ∀ q, totalResolvedCount w' q = totalResolvedCount w q)
    (hother : ∀ q, q ≠ pid → labeledResolvedCount w' q = labeledResolvedCount w q)
    (hnew : (if hl then
        min (labeledResolvedCount w pid + 1) (totalResolvedCount w pid)
      else max (labeledResolvedCount w pid - 1) 0) = labeledResolvedCount w' pid)
    (hc : Consistent w c) :
    Consistent w' (update_problem_label_stats w' c pid a hl) := by
  rw [update_resolved_eq w' c pid a hl (by rw [hsubeq]; exact hsub)]
  cases hgp : get_problem w' pid with
  | none =>
    have hne : ∀ p ∈ w'.problems, p.problem_id ≠ pid := by
      intro p hp
      have h1 := List.find?_eq_none.mp hgp p hp
      simpa using h1
    constructor
    · intro p hp
      rw [getter_set_problem_stats, lookupA_setA, if_neg (hne p hp),
        hother p.problem_id (hne p hp), htotes p.problem_id]
      exact hc.1 p (hprobeq ▸ hp)
    · intro r
      rw [repo_getter_set_problem_stats]
      have hlab : ∀ q, (∃ p ∈ w.problems, p.problem_id = q) →
          labeledResolvedCount w' q = labeledResolvedCount w q := by
        rintro q ⟨p, hp, rfl⟩
        exact hother p.problem_id (hne p (hprobeq ▸ hp))
      have hrqc : repoQualifyingCount w' r = repoQualifyingCount w r := by
        unfold repoQualifyingCount
        rw [hprobeq]
        congr 1
        apply List.countP_congr
        intro p _
        rw [htotes p.problem_id]
      have hrfc : repoFullyLabeledCount w' r = repoFullyLabeledCount w r := by
        unfold repoFullyLabeledCount
        rw [hprobeq]
        congr 1
        apply List.countP_congr
        intro p hp
        rw [htotes p.problem_id, hlab p.problem_id ⟨p, hp, rfl⟩]
      rw [hrqc, hrfc]
      exact hc.2 r
  | some problem =>
    have hpmem' : problem ∈ w'.problems := List.mem_of_find?_eq_some hgp
    have hpmem : problem ∈ w.problems := hprobeq ▸ hpmem'
    have hpid : problem.problem_id = pid := by simpa using List.find?_some hgp
    have hget : (lookupA c.problem_stats pid).getD (0, 0) =
        (labeledResolvedCount w pid, totalResolvedCount w pid) := by
      have h1 := hc.1 problem hpmem
      rw [hpid] at h1
      exact h1
    have hR : problem.repo ≠ "" := hrepo problem hpmem
    have hval : ((if hl then
          min (((lookupA c.problem_stats pid).getD (0, 0)).1 + 1)
            (((lookupA c.problem_stats pid).getD (0, 0)).2)
        else max (((lookupA c.problem_stats pid).getD (0, 0)).1 - 1) 0),
          ((lookupA c.problem_stats pid).getD (0, 0)).2) =
        (labeledResolvedCount w' pid, totalResolvedCount w' pid) := by
      rw [hget]
      simp only [Prod.mk.injEq]
      exact ⟨hnew, (htotes pid).symm⟩
    rw [hval]
    have hprobC : ∀ p ∈ w'.problems,
        get_problem_label_stats
          { c with
              problem_stats := setA c.problem_stats pid
                                 (labeledResolvedCount w' pid, totalResolvedCount w' pid) }
          p.problem_id =
        (labeledResolvedCount w' p.problem_id, totalResolvedCount w' p.problem_id) := by
      intro p hp
      rw [getter_set_problem_stats, lookupA_setA]
      by_cases hq : p.problem_id = pid
      · rw [if_pos hq, hq]
        simp
      · rw [if_neg hq, hother p.problem_id hq, htotes p.problem_id]
        exact hc.1 p (hprobeq ▸ hp)
    have hmain := update_repo_stats_correct w' _ problem.repo pid hR hprobC
    constructor
    · intro p hp
      rw [hmain.1 p.problem_id]
      exact hprobC p hp
    · intro r
      rw [hmain.2 r]
      by_cases hrr : r = problem.repo
      · rw [if_pos hrr, hrr]
      · rw [if_neg hrr, repo_getter_set_problem_stats]
        have hids : ∀ p ∈ w.problems, p.repo = r → p.problem_id ≠ pid := by
          intro p hp hpr hpp
          have : p = problem :=
            nodup_map_eq hnd_ids hp hpmem (by rw [hpp, hpid])
          rw [this] at hpr
          exact hrr hpr.symm
        have hrqc : repoQualifyingCount w' r = repoQualifyingCount w r := by
          unfold repoQualifyingCount
          rw [hprobeq]
          congr 1
          apply List.countP_congr
          intro p _
          rw [htotes p.problem_id]
        have hrfc : repoFullyLabeledCount w' r = repoFullyLabeledCount w r := by
          unfold repoFullyLabeledCount
          rw [hprobeq]
          congr 1
          apply List.countP_congr
          intro p hp
          by_cases hpr : p.repo = r
          · rw [htotes p.problem_id, hother p.problem_id (hids p hp hpr)]
          · simp [hpr]
        rw [hrqc, hrfc]
        exact hc.2 r



/-- Consistency is preserved by one update call mirroring one real label
transition. -/
theorem step_consistent (w w' : World) (c : LabelStatsCache) (pid a : String) (hl : Bool)
    (hnd_ids : (w.problems.map (fun p => p.problem_id)).Nodup)
    (hnd_subs : ∀ q, ((w.submissions q).map (fun s => s.1)).Nodup)
    (hrepo : ∀ p ∈ w.problems, p.repo ≠ "")
    (ht : LabelTransition w pid a hl w')
    (hc : Consistent w c) :
    Consistent w' (update_problem_label_stats w' c pid a hl) := by
  have hprobeq : w'.problems = w.problems := transition_problems ht
  have hsubeq : w'.submissions = w.submissions := transition_submissions ht
  have htotes : ∀ q, totalResolvedCount w' q = totalResolvedCount w q :=
    totalResolvedCount_transition ht
  cases hsub : lookupA (w.submissions pid) a with
  | none =>
    rw [update_noop w' c pid a hl (by rw [hsubeq]; exact Or.inl hsub)]
    exact counts_eq_consistent w w' c hprobeq htotes
      (labeled_count_nonresolved w w' pid a hl ht
        (not_mem_resolved_of_lookup w pid a (hnd_subs pid) (Or.inl hsub))) hc
  | some resolved =>
    cases resolved with
    | false =>
      rw [update_noop w' c pid a hl (by rw [hsubeq]; exact Or.inr hsub)]
      exact counts_eq_consistent w w' c hprobeq htotes
        (labeled_count_nonresolved w w' pid a hl ht
          (not_mem_resolved_of_lookup w pid a (hnd_subs pid) (Or.inr hsub))) hc
    | true =>
      have hres : a ∈ resolved_agents w pid := mem_resolved_of_lookup_true w pid a hsub
      apply resolved_step_consistent w w' c pid a hl hnd_ids hrepo hsub hprobeq hsubeq
        htotes ?hother ?hnew hc
      case hother =>
        intro q hq
        exact labeled_count_other w w' pid a hl ht q hq
      case hnew =>
        cases ht with
        | add hnot =>
          obtain ⟨h1, h2⟩ := labeled_count_add w pid a (hnd_subs pid) hres hnot
          rw [if_pos rfl, h1]
          exact min_eq_left h2
        | remove hmem =>
          obtain ⟨h1, h2⟩ := labeled_count_remove w pid a (hnd_subs pid) hres hmem
          rw [if_neg (by simp), h1]
          exact max_eq_left (by omega)

/-- Consistency is preserved along any sequence of update calls, each
mirroring one real label transition. -/
theorem updateSeq_consistent (w : World) (c : LabelStatsCache) (w2 : World)
    (c2 : LabelStatsCache) (hseq : UpdateSeq w c w2 c2) :
    (w.problems.map (fun p => p.problem_id)).Nodup →
    (∀ q, ((w.submissions q).map (fun s => s.1)).Nodup) →
    (∀ p ∈ w.problems, p.repo ≠ "") →
    Consistent w c → Consistent w2 c2 := by
  induction hseq with
  | nil _ _ =>
    intro _ _ _ hc
    exact hc
  | step w c pid a hl w1 w2 c2 ht _ ih =>
    intro h1 h2 h3 hc
    apply ih
    · rw [transition_problems ht]
      exact h1
    · rw [transition_submissions ht]
      exact h2
    · rw [transition_problems ht]
      exact h3
    · exact step_consistent w w1 c pid a hl h1 h2 h3 ht hc

/-- Counterexample to C1 as stated: starting from the rebuilt cache over
wC1cex0 and performing the single real transition that creates X's label on
P1, the incremental cache reports (1, 2) for the empty-named repository
while a fresh rebuild over the same final state reports (1, 1): the
problem_id parameter "" is falsy in Python, so get_problems(repo="") returns
every problem and the recompute counts P2 into the empty-named repository. -/
theorem claim_C1_counterexample :
    UpdateSeq wC1cex0 (rebuild_cache wC1cex0 LabelStatsCache.empty) wC1cex1 cC1cex ∧
    get_repo_label_stats cC1cex "" = (1, 2) ∧
    get_repo_label_stats (rebuild_cache wC1cex1 LabelStatsCache.empty) "" = (1, 1) ∧
    get_repo_label_stats cC1cex "" ≠
      get_repo_label_stats (rebuild_cache wC1cex1 LabelStatsCache.empty) "" :=
  ⟨UpdateSeq.step wC1cex0 (rebuild_cache wC1cex0 LabelStatsCache.empty) "P1" "X" true
      wC1cex1 wC1cex1 cC1cex
      (LabelTransition.add wC1cex0 "P1" "X" (by decide))
      (UpdateSeq.nil wC1cex1 cC1cex),
    by decide, by decide, by decide⟩

/-- C1 (amended): with the Submission Index and Label Store held fixed,
starting from a cache produced by rebuild_cache and after any finite
sequence of update calls each mirroring exactly one real label transition,
get_repo_label_stats agrees with what rebuild_cache would compute from the
final state — for every repository, provided no known problem has an
empty-string repository name (and with dict-key uniqueness of the index
made explicit). -/
theorem claim_C1_repo_refinement (w0 w1 : World) (c0 c1 : LabelStatsCache)
    (hnd_ids : (w0.problems.map (fun p => p.problem_id)).Nodup)
    (hnd_subs : ∀ q, ((w0.submissions q).map (fun s => s.1)).Nodup)
    (hrepo : ∀ p ∈ w0.problems, p.repo ≠ "")
    (hseq : UpdateSeq w0 (rebuild_cache w0 c0) w1 c1) :
    ∀ (repo : String) (c2 : LabelStatsCache),
      get_repo_label_stats c1 repo = get_repo_label_stats (rebuild_cache w1 c2) repo := by
  intro repo c2
  have h1 : Consistent w1 c1 :=
    updateSeq_consistent w0 (rebuild_cache w0 c0) w1 c1 hseq hnd_ids hnd_subs hrepo
      (rebuild_consistent w0 c0)
  have h2 : Consistent w1 (rebuild_cache w1 c2) := rebuild_consistent w1 c2
  rw [h1.2 repo, h2.2 repo]

/-- Witness for the amended C1 on wSmall: one real transition (Y's label on
P is created), mirrored by one update call; the incremental repo tuple for
r equals the freshly rebuilt one. -/
theorem claim_C1_witness :
    get_repo_label_stats
        (update_problem_label_stats wSmallY (rebuild_cache wSmall LabelStatsCache.empty)
          "P" "Y" true) "r" =
      get_repo_label_stats (rebuild_cache wSmallY LabelStatsCache.empty) "r" :=
  claim_C1_repo_refinement wSmall wSmallY LabelStatsCache.empty
    (update_problem_label_stats wSmallY (rebuild_cache wSmall LabelStatsCache.empty)
      "P" "Y" true)
    (by decide)
    (fun q => by
      show ((if q = "P" then [("X", true), ("Y", true), ("Z", false)]
        else if q = "Q" then [("V", false)] else []).map (fun s => s.1)).Nodup
      split_ifs <;> decide)
    (by decide)
    (UpdateSeq.step wSmall (rebuild_cache wSmall LabelStatsCache.empty) "P" "Y" true
      wSmallY wSmallY
      (update_problem_label_stats wSmallY (rebuild_cache wSmall LabelStatsCache.empty)
        "P" "Y" true)
      (LabelTransition.add wSmall "P" "Y" (by decide))
      (UpdateSeq.nil wSmallY
        (update_problem_label_stats wSmallY (rebuild_cache wSmall LabelStatsCache.empty)
          "P" "Y" true)))
    "r" LabelStatsCache.empty

/-! ### The observable states of an in-place rebuild (claim C6) -/

theorem scanStates_cons_form {σ α : Type} (f : σ → α → σ) (s : σ) (l : List α) :
    ∃ rest, scanStates f s l = s :: rest := by
  cases l with
  | nil => exact ⟨[], rfl⟩
  | cons x xs => exact ⟨scanStates f (f s x) xs, rfl⟩

theorem getLast?_scanStates {σ α : Type} (f : σ → α → σ) (s : σ) (l : List α) :
    (scanStates f s l).getLast? = some (l.foldl f s) := by
  induction l generalizing s with
  | nil => rfl
  | cons x xs ih =>
    show (s :: scanStates f (f s x) xs).getLast? = some (xs.foldl f (f s x))
    obtain ⟨rest, hrest⟩ := scanStates_cons_form f (f s x) xs
    rw [hrest, List.getLast?_cons_cons, ← hrest, ih]

theorem head?_rebuild_trace (w : World) (c : LabelStatsCache) :
    (rebuild_trace w c).head? = some ⟨[], []⟩ := by
  unfold rebuild_trace
  obtain ⟨rest, hrest⟩ :=
    scanStates_cons_form (rebuildStep w) ⟨[], [], []⟩ (get_problems w none)
  simp [hrest]

theorem getLast?_rebuild_trace (w : World) (c : LabelStatsCache) :
    (rebuild_trace w c).getLast? = some (rebuild_cache w c) := by
  unfold rebuild_trace
  rw [List.getLast?_append, List.getLast?_map, getLast?_scanStates]
  rfl

/-- Counterexample to C6 as stated: rebuild_cache does not build the new
mappings aside and swap them in; it clears both dicts in place (lines 29-30)
and repopulates them incrementally, so a reader during a rebuild over wSmall
can observe the cleared state, which is neither the complete pre-rebuild
state nor the complete post-rebuild state. -/
theorem claim_C6_counterexample :
    (⟨[], []⟩ : LabelStatsCache) ∈
        rebuild_trace wSmall (rebuild_cache wSmall LabelStatsCache.empty) ∧
    (⟨[], []⟩ : LabelStatsCache) ≠ rebuild_cache wSmall LabelStatsCache.empty ∧
    (⟨[], []⟩ : LabelStatsCache) ≠
      rebuild_cache wSmall (rebuild_cache wSmall LabelStatsCache.empty) :=
  ⟨by decide, by decide, by decide⟩

/-- C6 (amended): rebuild_cache mutates the live mappings in place: the
first state a reader can observe during a rebuild is the cleared cache
(both mappings empty), intermediate states are partially populated, and the
final observable state is the completed rebuild. Only after completion are
the mappings whole again. -/
theorem claim_C6_rebuild_in_place (w : World) (c : LabelStatsCache) :
    (rebuild_trace w c).head? = some ⟨[], []⟩ ∧
    (rebuild_trace w c).getLast? = some (rebuild_cache w c) :=
  ⟨head?_rebuild_trace w c, getLast?_rebuild_trace w c⟩

/-- C7: the startup sequence (main.py lifespan) scans the Submission Index
but never invokes rebuild_cache — main.py does not even import the cache —
so after startup both mappings are still empty: the getters return the
(0, 0) default for problem P and repo r of wSmall, while the rebuild the
claim promises would return (1, 2) and (0, 1). -/
theorem claim_C7_startup_stale :
    lifespan_startup LabelStatsCache.empty = LabelStatsCache.empty ∧
    get_problem_label_stats (lifespan_startup LabelStatsCache.empty) "P" = (0, 0) ∧
    get_repo_label_stats (lifespan_startup LabelStatsCache.empty) "r" = (0, 0) ∧
    get_problem_label_stats (rebuild_cache wSmall LabelStatsCache.empty) "P" = (1, 2) ∧
    get_repo_label_stats (rebuild_cache wSmall LabelStatsCache.empty) "r" = (0, 1) :=
  ⟨rfl, by decide, by decide, by decide, by decide⟩

/-- C8: save_label calls update_problem_label_stats on every successful
save, not only on real label transitions: resaving agent X's existing label
on P drives the cached problem tuple from the correct (1, 2) to (2, 2) and
marks repo r fully labeled (1, 1), while the ground truth — a fresh rebuild
over the unchanged label store — still reports (1, 2) and (0, 1).
delete_label for a key with no label, by contrast, returns 404 and performs
no cache update. (commit_draft likewise calls the update unconditionally at
labels.py lines 236-238.) -/
theorem claim_C8_resave_inflates :
    api_save_label wSmall (rebuild_cache wSmall LabelStatsCache.empty) "P" "X" =
      Except.ok (wSmall,
        update_problem_label_stats wSmall (rebuild_cache wSmall LabelStatsCache.empty)
          "P" "X" true) ∧
    get_problem_label_stats
        (update_problem_label_stats wSmall (rebuild_cache wSmall LabelStatsCache.empty)
          "P" "X" true) "P" = (2, 2) ∧
    get_repo_label_stats
        (update_problem_label_stats wSmall (rebuild_cache wSmall LabelStatsCache.empty)
          "P" "X" true) "r" = (1, 1) ∧
    get_problem_label_stats (rebuild_cache wSmall LabelStatsCache.empty) "P" = (1, 2) ∧
    get_repo_label_stats (rebuild_cache wSmall LabelStatsCache.empty) "r" = (0, 1) ∧
    api_delete_label wSmall (rebuild_cache wSmall LabelStatsCache.empty) "P" "Y" =
      Except.error 404 :=
  ⟨rfl, by decide, by decide, by decide, by decide, rfl⟩

end LabelStats
